import Mathlib

/-!
Verification development for the CryptoQuant MCP discovery/permission
subsystem.  The TypeScript sources are shallowly embedded: JavaScript
objects become an inductive `JVal`, JS `Date` values become a normalized
proleptic-Gregorian calendar structure with millisecond-of-day, module
level mutable state is passed explicitly, and fallible operations return
`Option`/`Except`.  Times are modelled in UTC (the deployment default for
the cache code); ISO timestamp strings stored in the cache are modelled
as epoch-millisecond numbers, which round-trip through JS `Date` exactly
as the strings do.  Floating-point ratio comparisons in the tier
heuristic are modelled with exact rationals, which agree with the IEEE
computation for every table smaller than astronomically large.
-/

set_option synthInstance.maxSize 2048

/-! ## JavaScript value model -/

/-- A JSON-style JavaScript value (no `undefined`: absence of a property
is modelled by `Option.none` at use sites). -/
inductive JVal where
  | jnull
  | jbool (b : Bool)
  | jnum (n : Int)
  | jstr (s : String)
  | jarr (xs : List JVal)
  | jobj (fields : List (String × JVal))
deriving Repr

/-- Association-list lookup (first occurrence), the semantics of reading a
property of a JS object. -/
def alLookup {α : Type} (m : List (String × α)) (k : String) : Option α :=
  match m with
  | [] => none
  | (k', v) :: rest => if k' = k then some v else alLookup rest k

/-- JS assignment `m[k] = v`: overwrite the first occurrence in place, else
append. -/
def alSet {α : Type} (m : List (String × α)) (k : String) (v : α) : List (String × α) :=
  match m with
  | [] => [(k, v)]
  | (k', v') :: rest => if k' = k then (k, v) :: rest else (k', v') :: alSet rest k v

/-- JS truthiness of a value. -/
def jvTruthy : JVal → Bool
  | .jnull => false
  | .jbool b => b
  | .jnum n => n != 0
  | .jstr s => s ≠ ""
  | .jarr _ => true
  | .jobj _ => true

/-- JS truthiness of a possibly-`undefined` value. -/
def jvTruthyO : Option JVal → Bool
  | none => false
  | some v => jvTruthy v

/-- `typeof v === "object"` (true for objects, arrays and `null`). -/
def jvTypeofObject : JVal → Bool
  | .jnull => true
  | .jarr _ => true
  | .jobj _ => true
  | _ => false

/-- Property read on an *object-like* value, total: returns `none`
(undefined) for primitives and arrays (no numeric indices are used by the
embedded code). -/
def jvField (v : JVal) (k : String) : Option JVal :=
  match v with
  | .jobj fs => alLookup fs k
  | _ => none

/-- `Object.entries`: fields of an object, indexed elements of an array,
empty for primitives. -/
def jvEntries (v : JVal) : List (String × JVal) :=
  match v with
  | .jobj fs => fs
  | .jarr xs => (List.range xs.length).zip xs |>.map (fun p => (toString p.1, p.2))
  | _ => []

/-- Property read `base.k` where `base` is a defined value: throws
(`Except.error`) when `base` is `null`, yields `undefined` (`none`) when
the property is missing or the base is a primitive. -/
def jsGet (base : JVal) (k : String) : Except String (Option JVal) :=
  match base with
  | .jnull => .error ("TypeError: cannot read properties of null (reading " ++ k ++ ")")
  | .jobj fs => .ok (alLookup fs k)
  | _ => .ok none

/-- Property read `base.k` where `base` may be `undefined`: throws when the
base is `undefined` or `null`. -/
def jsGetOn (base : Option JVal) (k : String) : Except String (Option JVal) :=
  match base with
  | none => .error ("TypeError: cannot read properties of undefined (reading " ++ k ++ ")")
  | some v => jsGet v k

/-- Strict equality of a possibly-undefined value with a number literal. -/
def jvIsNum (v : Option JVal) (n : Int) : Bool :=
  match v with
  | some (.jnum m) => m = n
  | _ => false

/-- Strict equality of a possibly-undefined value with a string. -/
def jvIsStr (v : Option JVal) (s : String) : Bool :=
  match v with
  | some (.jstr t) => t = s
  | _ => false

/-- `String.prototype.split` with a single-character separator, over the
character list (JS semantics: a leading/trailing separator yields an
empty field, and splitting the empty string yields `[""]`). -/
def splitList (sep : Char) : List Char → List (List Char)
  | [] => [[]]
  | c :: rest =>
    let r := splitList sep rest
    if c = sep then [] :: r
    else
      match r with
      | h :: t => (c :: h) :: t
      | [] => [[c]]

/-- `s.split(sep)` for a one-character separator. -/
def jsSplit (s : String) (sep : Char) : List String :=
  (splitList sep s.data).map (fun l => ⟨l⟩)

/-- `toLowerCase` on the ASCII range (the only characters the embedded
plan names carry). -/
def lowerChar (c : Char) : Char :=
  if 'A' ≤ c ∧ c ≤ 'Z' then Char.ofNat (c.toNat + 32) else c

def jsToLower (s : String) : String :=
  ⟨s.data.map lowerChar⟩

/-- Code-unit comparison of strings (`<` on JS strings, used by
`Array.prototype.sort`). -/
def charListLe : List Char → List Char → Bool
  | [], _ => true
  | _ :: _, [] => false
  | a :: as, b :: bs => if a < b then true else if b < a then false else charListLe as bs

def strLe (a b : String) : Bool :=
  charListLe a.data b.data

/-- `s.slice(0, n)`: the first `n` characters (structural, so that it
reduces on symbolic strings). -/
def strTake (s : String) (n : Nat) : String :=
  ⟨s.data.take n⟩

/-! ## JS Date model

A `JSDate` is a normalized proleptic-Gregorian calendar point: `year`,
0-based `month`, 1-based `day`, and milliseconds within the day.  The
civil-day conversions implement the standard era-based algorithms; field
setters (`setFullYear`, `setMonth`, `setDate`) reproduce the JS rollover
normalization (out-of-range fields spill into neighbours). -/

/-- Civil day number (days since 1970-01-01) of year/month(1-based)/day. -/
def daysFromCivil (y m d : Int) : Int :=
  let y2 := if m ≤ 2 then y - 1 else y
  let era := Int.fdiv y2 400
  let yoe := y2 - era * 400
  let mp := if m > 2 then m - 3 else m + 9
  let doy := Int.fdiv (153 * mp + 2) 5 + d - 1
  let doe := yoe * 365 + Int.fdiv yoe 4 - Int.fdiv yoe 100 + doy
  era * 146097 + doe - 719468

/-- Inverse of `daysFromCivil`: year, 1-based month, day. -/
def civilFromDays (z : Int) : Int × Int × Int :=
  let z2 := z + 719468
  let era := Int.fdiv z2 146097
  let doe := z2 - era * 146097
  let yoe := Int.fdiv (doe - Int.fdiv doe 1460 + Int.fdiv doe 36524 - Int.fdiv doe 146096) 365
  let y := yoe + era * 400
  let doy := doe - (365 * yoe + Int.fdiv yoe 4 - Int.fdiv yoe 100)
  let mp := Int.fdiv (5 * doy + 2) 153
  let d := doy - Int.fdiv (153 * mp + 2) 5 + 1
  let m := if mp < 10 then mp + 3 else mp - 9
  (if m ≤ 2 then y + 1 else y, m, d)

/-- JS `MakeDay(year, month, date)` with 0-based month: civil day number,
normalizing out-of-range month and day by rollover. -/
def jsMakeDay (y m d : Int) : Int :=
  let t := y * 12 + m
  let y1 := Int.fdiv t 12
  let m1 := t - 12 * y1
  daysFromCivil y1 (m1 + 1) 1 + (d - 1)

structure JSDate where
  year : Int
  month : Int
  day : Int
  msOfDay : Int
deriving DecidableEq, Repr

/-- The calendar point of a civil day number plus time of day. -/
def jsDateOfDays (days ms : Int) : JSDate :=
  let c := civilFromDays days
  ⟨c.1, c.2.1 - 1, c.2.2, ms⟩

/-- Build a normalized date from possibly out-of-range fields (0-based
month), as JS `Date` setters do. -/
def mkJSDate (y m d ms : Int) : JSDate :=
  jsDateOfDays (jsMakeDay y m d) ms

def JSDate.setFullYear (dt : JSDate) (y : Int) : JSDate :=
  mkJSDate y dt.month dt.day dt.msOfDay

def JSDate.setMonth (dt : JSDate) (m : Int) : JSDate :=
  mkJSDate dt.year m dt.day dt.msOfDay

def JSDate.setDate (dt : JSDate) (d : Int) : JSDate :=
  mkJSDate dt.year dt.month d dt.msOfDay

def JSDate.toDays (dt : JSDate) : Int :=
  jsMakeDay dt.year dt.month dt.day

/-- Epoch milliseconds; `<` on JS dates compares this. -/
def JSDate.toMs (dt : JSDate) : Int :=
  dt.toDays * 86400000 + dt.msOfDay

def pad2 (n : Int) : String :=
  if n < 10 then "0" ++ toString n else toString n

def pad4 (n : Int) : String :=
  if n < 10 then "000" ++ toString n
  else if n < 100 then "00" ++ toString n
  else if n < 1000 then "0" ++ toString n
  else toString n

/-- `date.toISOString().split("T")[0]` — the date-only part. -/
def isoDateOnly (dt : JSDate) : String :=
  pad4 dt.year ++ "-" ++ pad2 (dt.month + 1) ++ "-" ++ pad2 dt.day

def isDigit (c : Char) : Bool :=
  '0' ≤ c ∧ c ≤ '9'

/-- Numeric value of a decimal digit string (the semantics of
`parseInt(s, 10)` on an all-digit string). -/
def digitsVal (ds : List Char) : Nat :=
  ds.foldl (fun a c => a * 10 + (c.toNat - 48)) 0

def isLeapYear (y : Int) : Bool :=
  (Int.emod y 4 = 0 ∧ Int.emod y 100 ≠ 0) ∨ Int.emod y 400 = 0

def daysInMonth (y m : Int) : Int :=
  if m = 2 then (if isLeapYear y then 29 else 28)
  else if m = 4 ∨ m = 6 ∨ m = 9 ∨ m = 11 then 30
  else 31

/-- `new Date(s)` for a date-only ISO string `YYYY-MM-DD`: midnight UTC,
or `none` (an invalid date) when the string is not of that shape or the
calendar fields are out of range.  Other JS-parseable formats are outside
the model. -/
def jsDateParse (s : String) : Option JSDate :=
  match s.data with
  | [y1, y2, y3, y4, '-', m1, m2, '-', d1, d2] =>
    if isDigit y1 ∧ isDigit y2 ∧ isDigit y3 ∧ isDigit y4 ∧
       isDigit m1 ∧ isDigit m2 ∧ isDigit d1 ∧ isDigit d2 then
      let y : Int := digitsVal [y1, y2, y3, y4]
      let m : Int := digitsVal [m1, m2]
      let d : Int := digitsVal [d1, d2]
      if 1 ≤ m ∧ m ≤ 12 ∧ 1 ≤ d ∧ d ≤ daysInMonth y m then
        some (mkJSDate y (m - 1) d 0)
      else none
    else none
  | _ => none

/-! ## Duration codec (`plan-limits.ts`) -/

/-- After the leading `P`: the maximal digit run and the remainder, which
must be exactly one unit letter. -/
def matchDurAux : List Char → List Char → Option (Nat × Char)
  | [], _ => none
  | d :: ds, [u] =>
    if u = 'Y' ∨ u = 'M' ∨ u = 'W' ∨ u = 'D' then
      some (digitsVal (d :: ds), u)
    else none
  | _ :: _, [] => none
  | _ :: _, _ :: _ :: _ => none

/-- The top level of the regex `^P(\d+)([YMWD])$` over the character
list: a leading `P`, then the digit run and the remainder. -/
def matchDurTop : List Char → Option (Nat × Char)
  | [] => none
  | c :: rest =>
    if c = 'P' then matchDurAux (rest.takeWhile isDigit) (rest.dropWhile isDigit)
    else none

/-- The regex `^P(\d+)([YMWD])$`: quantity and unit letter, or `none`. -/
def matchDuration (s : String) : Option (Nat × Char) :=
  matchDurTop s.data

/-- `/^P\d+[YMWD]$/.test s`. -/
def isDurationToken (s : String) : Bool :=
  (matchDuration s).isSome

/-- `parseDurationToDate(duration)` with the call-time `new Date()` passed
explicitly as `now`. -/
def parseDurationToDate (now : JSDate) (duration : String) : Option JSDate :=
  if duration = "P0D" then none
  else
    match matchDuration duration with
    | none => none
    | some (value, unit) =>
      if unit = 'Y' then some (now.setFullYear (now.year - value))
      else if unit = 'M' then some (now.setMonth (now.month - value))
      else if unit = 'W' then some (now.setDate (now.day - 7 * value))
      else if unit = 'D' then some (now.setDate (now.day - value))
      else none

/-- Spec-side: "now minus `n` calendar units" — the subtraction the codec
performs for each unit letter (calendar-field adjustment for years and
months, a week is 7 days). -/
def calendarSub (now : JSDate) (n : Nat) (u : Char) : JSDate :=
  if u = 'Y' then now.setFullYear (now.year - n)
  else if u = 'M' then now.setMonth (now.month - n)
  else if u = 'W' then now.setDate (now.day - 7 * n)
  else now.setDate (now.day - n)

/-- Spec-side grammar of a duration token: a leading `P`, a nonempty run
of decimal digits denoting `n`, and a single unit letter `u` from
`{Y, M, W, D}`. -/
def IsDurToken (tok : String) (n : Nat) (u : Char) : Prop :=
  ∃ ds : List Char, tok.data = 'P' :: ds ++ [u] ∧ ds ≠ [] ∧
    (∀ c ∈ ds, isDigit c = true) ∧ digitsVal ds = n ∧
    (u = 'Y' ∨ u = 'M' ∨ u = 'W' ∨ u = 'D')

/-! ## Plan-limits resolver (`plan-limits.ts`) -/

inductive UserPlan where
  | basic
  | advanced
  | professional
  | premium
  | custom
  | unknown
deriving DecidableEq, Repr

/-- Per-metric window limits: `{ [windowType]: DurationLimit }`. -/
structure MetricLimits where
  window : List (String × String)
deriving DecidableEq, Repr

/-- `asset -> category -> metric -> MetricLimits`, JS objects as ordered
association lists. -/
abbrev PlanLimits : Type :=
  List (String × List (String × List (String × MetricLimits)))

structure ApiRateLimit where
  token : Int
  window : String
deriving DecidableEq, Repr

structure PlanLimitsState where
  loaded : Bool
  limits : Option PlanLimits
  plan : UserPlan
  statics : List String
  apiRateLimit : Option ApiRateLimit
  fetched_at : Option Int
deriving DecidableEq, Repr

def defaultPlanLimitsState : PlanLimitsState :=
  { loaded := false, limits := none, plan := .unknown, statics := [],
    apiRateLimit := none, fetched_at := none }

def normalizePlanName (apiPlanName : String) : UserPlan :=
  let normalized := jsToLower apiPlanName
  if normalized = "basic" then .basic
  else if normalized = "advanced" then .advanced
  else if normalized = "professional" then .professional
  else if normalized = "premium" then .premium
  else if normalized = "custom" then .custom
  else .unknown

structure ParsedApiResponse where
  limits : Option PlanLimits
  statics : List String
  apiRateLimit : Option ApiRateLimit
  planName : Option String
deriving Repr

/-- The metric level of `parseApiResponse`: keep only string fields
matching the duration-token grammar; drop a metric with no valid window. -/
def parseMetricEntries (metrics : JVal) : List (String × MetricLimits) :=
  (jvEntries metrics).foldl
    (fun acc p =>
      match p.2 with
      | .jobj _ | .jarr _ =>
        let windowLimits := (jvEntries p.2).foldl
          (fun w q =>
            match q.2 with
            | .jstr v => if isDurationToken v then alSet w q.1 v else w
            | _ => w) []
        if windowLimits ≠ [] then alSet acc p.1 ⟨windowLimits⟩ else acc
      | _ => acc) []

/-- The category level: `typeof metrics !== "object" || metrics === null`
skips the entry; an object-like value is assigned (possibly empty). -/
def parseCategoryEntries (categories : JVal) : List (String × List (String × MetricLimits)) :=
  (jvEntries categories).foldl
    (fun acc p =>
      match p.2 with
      | .jobj _ | .jarr _ => alSet acc p.1 (parseMetricEntries p.2)
      | _ => acc) []

/-- The asset level: the key `"statics"` and non-object values are
skipped; every other asset key is assigned (possibly with an empty
category map). -/
def parseAssetEntries (apiEndpoint : JVal) : PlanLimits :=
  (jvEntries apiEndpoint).foldl
    (fun acc p =>
      if p.1 = "statics" then acc
      else
        match p.2 with
        | .jobj _ | .jarr _ => alSet acc p.1 (parseCategoryEntries p.2)
        | _ => acc) []

/-- `parseApiResponse(data)`.  Non-string members of a `statics` array are
dropped by the model (the code carries them under an unsound cast; no
embedded consumer distinguishes the two). -/
def parseApiResponse (data : JVal) : ParsedApiResponse :=
  if ¬ (jvTruthy data ∧ jvTypeofObject data) then
    ⟨none, [], none, none⟩
  else
    let planName :=
      match jvField data "plan" with
      | some pv =>
        if jvTruthy pv ∧ jvTypeofObject pv then
          match jvField pv "name" with
          | some (.jstr s) => some s
          | _ => none
        else none
      | none => none
    let (limits, statics) :=
      match jvField data "apiEndpoint" with
      | some ae =>
        if jvTruthy ae ∧ jvTypeofObject ae then
          let l := parseAssetEntries ae
          let st :=
            match jvField ae "statics" with
            | some (.jarr xs) =>
              if jvTruthy (.jarr xs) then
                xs.foldr (fun v acc => match v with | .jstr s => s :: acc | _ => acc) []
              else []
            | _ => []
          (if l ≠ [] then some l else none, st)
        else (none, [])
      | none => (none, [])
    let apiRateLimit :=
      match jvField data "apiRateLimit" with
      | some rl =>
        if jvTruthy rl ∧ jvTypeofObject rl then
          match jvField rl "token", jvField rl "window" with
          | some (.jnum t), some (.jstr w) => some (⟨t, w⟩ : ApiRateLimit)
          | _, _ => none
        else none
      | none => none
    ⟨limits, statics, apiRateLimit, planName⟩

structure DurCounts where
  p0d : Nat
  p3y : Nat
  p1d : Nat
  total : Nat
deriving DecidableEq, Repr

/-- One window entry folded into the duration counters. -/
def bumpCount (acc : DurCounts) (duration : String) : DurCounts :=
  let acc := { acc with total := acc.total + 1 }
  if duration = "P0D" then { acc with p0d := acc.p0d + 1 }
  else if duration = "P3Y" then { acc with p3y := acc.p3y + 1 }
  else if duration = "P1D" then { acc with p1d := acc.p1d + 1 }
  else acc

def foldWindows (acc : DurCounts) (ws : List (String × String)) : DurCounts :=
  ws.foldl (fun acc w => bumpCount acc w.2) acc

def foldMetrics (acc : DurCounts) (mets : List (String × MetricLimits)) : DurCounts :=
  mets.foldl (fun acc m => foldWindows acc m.2.window) acc

def foldCategories (acc : DurCounts)
    (cats : List (String × List (String × MetricLimits))) : DurCounts :=
  cats.foldl (fun acc c => foldMetrics acc c.2) acc

def collectDurationCounts (limits : PlanLimits) : DurCounts :=
  limits.foldl (fun acc a => foldCategories acc a.2) ⟨0, 0, 0, 0⟩

/-- `detectPlanFromLimits`: the heuristic tier fallback.  The IEEE-double
ratio comparisons of the source are modelled exactly over `ℚ`. -/
def detectPlanFromLimits (limits : Option PlanLimits) : UserPlan :=
  match limits with
  | none => .basic
  | some l =>
    let counts := collectDurationCounts l
    if counts.total = 0 then .basic
    else if ((counts.p1d : ℚ) / counts.total) > 1 / 2 then .basic
    else if ((counts.p0d : ℚ) / counts.total) > 1 / 2 then .premium
    else if ((counts.p3y : ℚ) / counts.total) > 3 / 10 then .professional
    else .advanced

/-- Spec-side: the flat list of all window-entry duration tokens of a
permission table, in walk order. -/
def allWindowEntries (l : PlanLimits) : List String :=
  l.flatMap (fun a => a.2.flatMap (fun c => c.2.flatMap (fun m => m.2.window.map Prod.snd)))

/-- Spec-side rendering of the claimed tier heuristic: fractions of the
window entries that are exactly `"P1D"`, `"P0D"`, `"P3Y"`, thresholds
checked in that priority order. -/
def detectPlanSpec (limits : Option PlanLimits) : UserPlan :=
  match limits with
  | none => .basic
  | some l =>
    let es := allWindowEntries l
    if es.length = 0 then .basic
    else if ((es.count "P1D" : ℚ) / es.length) > 1 / 2 then .basic
    else if ((es.count "P0D" : ℚ) / es.length) > 1 / 2 then .premium
    else if ((es.count "P3Y" : ℚ) / es.length) > 3 / 10 then .professional
    else .advanced

structure ParsedEndpointPath where
  asset : String
  category : String
  metric : String
deriving DecidableEq, Repr

def parseEndpointPath (endpointPath : String) : Option ParsedEndpointPath :=
  let parts := jsSplit endpointPath '/'
  if parts.length < 5 then none
  else some ⟨parts.getD 2 "", parts.getD 3 "", String.intercalate "/" (parts.drop 4)⟩

def getMetricLimits (st : PlanLimitsState) (endpointPath : String) : Option MetricLimits :=
  match st.limits with
  | none => none
  | some tbl =>
    match parseEndpointPath endpointPath with
    | none => none
    | some p =>
      match alLookup tbl p.asset with
      | none => none
      | some cats =>
        match alLookup cats p.category with
        | none => none
        | some mets => alLookup mets p.metric

/-- First window value of a metric (`window[Object.keys(window)[0]]`). -/
def firstWindow (ml : MetricLimits) : Option String :=
  match ml.window with
  | [] => none
  | (_, v) :: _ => some v

/-- `getPlanLimit(path, windowType?)`: the named window when present and
truthy, else the first available window. -/
def getPlanLimit (st : PlanLimitsState) (endpointPath : String)
    (windowType : Option String) : Option String :=
  match getMetricLimits st endpointPath with
  | none => none
  | some ml =>
    match windowType with
    | some wt =>
      if wt ≠ "" then
        match alLookup ml.window wt with
        | some v => if v ≠ "" then some v else firstWindow ml
        | none => firstWindow ml
      else firstWindow ml
    | none => firstWindow ml

def hasEndpointAccess (st : PlanLimitsState) (endpointPath : String) : Bool :=
  if ¬ st.loaded ∨ st.plan = .unknown then true
  else if endpointPath ∈ st.statics then true
  else if st.plan = .basic ∧ st.limits = none then false
  else if (getPlanLimit st endpointPath none).isSome then true
  else if st.plan = .premium ∨ st.plan = .professional ∨ st.plan = .custom then true
  else false

/-- Spec-side: the permission table holds at least one window entry for
the path's asset/category/metric triple. -/
def HasWindowEntry (st : PlanLimitsState) (path : String) : Prop :=
  ∃ tbl p cats mets ml, st.limits = some tbl ∧ parseEndpointPath path = some p ∧
    alLookup tbl p.asset = some cats ∧ alLookup cats p.category = some mets ∧
    alLookup mets p.metric = some ml ∧ ml.window ≠ []

open Classical in
/-- Spec-side rendering of the claimed access cascade: fail-open for an
unloaded state or unknown tier; then static-list membership; then the
basic-tier/no-table denial; then presence of a window entry; else access
exactly for the premium, professional and custom tiers. -/
def SpecAccess (st : PlanLimitsState) (path : String) : Prop :=
  if ¬ st.loaded ∨ st.plan = .unknown then True
  else if path ∈ st.statics then True
  else if st.plan = .basic ∧ st.limits = none then False
  else if HasWindowEntry st path then True
  else st.plan = .premium ∨ st.plan = .professional ∨ st.plan = .custom

structure DateRangeValidation where
  valid : Bool
  error : Option String
  earliest_allowed : Option String
  limit : Option String
deriving DecidableEq, Repr

def drvOk : DateRangeValidation :=
  ⟨true, none, none, none⟩

/-- `validateDateRange(path, fromDate?, windowType?)`; the call-time
`new Date()` is `now`.  `fromDate = some ""` is falsy in the source and
behaves as an absent date. -/
def validateDateRange (st : PlanLimitsState) (now : JSDate) (endpointPath : String)
    (fromDate : Option String) (windowType : Option String) : DateRangeValidation :=
  if ¬ st.loaded ∨ st.plan = .unknown then drvOk
  else if ¬ hasEndpointAccess st endpointPath then
    ⟨false, some "Endpoint not accessible on your plan", none, none⟩
  else
    match fromDate with
    | none => drvOk
    | some s =>
      if s = "" then drvOk
      else
        match getPlanLimit st endpointPath windowType with
        | none => ⟨false, some "No access to this endpoint/window combination", none, none⟩
        | some l =>
          if l = "" then ⟨false, some "No access to this endpoint/window combination", none, none⟩
          else if l = "P0D" then drvOk
          else
            match parseDurationToDate now l with
            | none => drvOk
            | some earliestDate =>
              match jsDateParse s with
              | none => ⟨false, some "Invalid date format", none, none⟩
              | some requestedDate =>
                if requestedDate.toMs < earliestDate.toMs then
                  ⟨false, some "Date range exceeds plan limit",
                    some (isoDateOnly earliestDate), some l⟩
                else drvOk

structure ParsedTriple where
  limits : Option PlanLimits
  statics : List String
  apiRateLimit : Option ApiRateLimit
deriving DecidableEq, Repr

structure FetchPlanLimitsResult where
  success : Bool
  error : Option String
  rawResponse : Option JVal
  parsed : Option ParsedTriple
  plan : Option UserPlan
deriving Repr

/-- `fetchPlanLimits`: the wire outcome of the GET is
`none` for a thrown network error, else the status code and the
JSON-parse result of the body.  Returns the result value together with
the new module-level `planLimitsState`. -/
def fetchPlanLimits (wire : Option (Nat × Option JVal)) (now : Int)
    (st : PlanLimitsState) : FetchPlanLimitsResult × PlanLimitsState :=
  match wire with
  | none => (⟨false, some "Plan limits fetch error", none, none, none⟩, st)
  | some (status, body) =>
    if status = 403 ∨ status = 500 then
      (⟨true, none, none, some ⟨none, [], none⟩, some .basic⟩,
       { defaultPlanLimitsState with loaded := true, plan := .basic, fetched_at := some now })
    else if ¬ (200 ≤ status ∧ status ≤ 299) then
      (⟨false, some "Plan limits API failed", none, none, none⟩, st)
    else
      match body with
      | none => (⟨false, some "Failed to parse plan limits response", none, none, none⟩, st)
      | some data =>
        let parsed := parseApiResponse data
        let plan :=
          match parsed.planName with
          | some n => normalizePlanName n
          | none => detectPlanFromLimits parsed.limits
        (⟨true, none, some data, some ⟨parsed.limits, parsed.statics, parsed.apiRateLimit⟩,
          some plan⟩,
         { loaded := true, limits := parsed.limits, plan := plan, statics := parsed.statics,
           apiRateLimit := parsed.apiRateLimit, fetched_at := some now })

/-! ## Endpoint catalog (`discovery.ts`) -/

structure DiscoveryEndpoint where
  path : String
  parameters : List (String × List String)
  required_parameters : List String
deriving DecidableEq, Repr

structure ParsedEndpoint where
  path : String
  asset : String
  category : String
  metric : String
  parameters : List (String × List String)
  required_parameters : List String
deriving DecidableEq, Repr

/-- The per-descriptor step of `parseEndpoints`: `none` for a path with
fewer than 5 slash-delimited segments, else the indexed endpoint with
asset and category taken from path segments 2 and 3. -/
def mkParsed (ep : DiscoveryEndpoint) : Option ParsedEndpoint :=
  let parts := jsSplit ep.path '/'
  if parts.length < 5 then none
  else some
    { path := ep.path
      asset := parts.getD 2 ""
      category := parts.getD 3 ""
      metric := String.intercalate "/" (parts.drop 4)
      parameters := ep.parameters
      required_parameters := ep.required_parameters }

/-- `addToIndex`: push onto the key's list when present (first occurrence,
as in a JS `Map`), else append a new entry. -/
def alAppend (m : List (String × List ParsedEndpoint)) (k : String)
    (e : ParsedEndpoint) : List (String × List ParsedEndpoint) :=
  match m with
  | [] => [(k, [e])]
  | (k', l) :: rest =>
    if k' = k then (k', l ++ [e]) :: rest else (k', l) :: alAppend rest k e

/-- A `Map.get(k) ?? []` read of an index. -/
def alLookupList (m : List (String × List ParsedEndpoint)) (k : String) :
    List ParsedEndpoint :=
  (alLookup m k).getD []

/-- Insertion sort on strings, the model of JS `Array.prototype.sort` on
the ASCII keys this code produces. -/
def insertStr (x : String) : List String → List String
  | [] => [x]
  | y :: ys => if strLe x y then x :: y :: ys else y :: insertStr x ys

def sortStrings (l : List String) : List String :=
  l.foldr insertStr []

structure EndpointCatalog where
  endpoints : List ParsedEndpoint
  assets : List String
  categories : List String
  byAsset : List (String × List ParsedEndpoint)
  byCategory : List (String × List ParsedEndpoint)
  byAssetCategory : List (String × List ParsedEndpoint)
  fetched_at : Int
deriving DecidableEq, Repr

/-- The accumulating state of the `parseEndpoints` loop. -/
structure CatalogAcc where
  endpoints : List ParsedEndpoint
  byAsset : List (String × List ParsedEndpoint)
  byCategory : List (String × List ParsedEndpoint)
  byAssetCategory : List (String × List ParsedEndpoint)
deriving DecidableEq, Repr

def catalogStep (acc : CatalogAcc) (ep : DiscoveryEndpoint) : CatalogAcc :=
  match mkParsed ep with
  | none => acc
  | some parsed =>
    { endpoints := acc.endpoints ++ [parsed]
      byAsset := alAppend acc.byAsset parsed.asset parsed
      byCategory := alAppend acc.byCategory parsed.category parsed
      byAssetCategory := alAppend acc.byAssetCategory (parsed.asset ++ "/" ++ parsed.category) parsed }

/-- `parseEndpoints(rawEndpoints)`.  The `assets`/`categories` sets are
accumulated in insertion order and then sorted; sorting a deduplicated
list of the endpoint fields yields the same list. -/
def parseEndpoints (rawEndpoints : List DiscoveryEndpoint) (now : Int) : EndpointCatalog :=
  let acc := rawEndpoints.foldl catalogStep ⟨[], [], [], []⟩
  { endpoints := acc.endpoints
    assets := sortStrings (acc.endpoints.map (·.asset)).dedup
    categories := sortStrings (acc.endpoints.map (·.category)).dedup
    byAsset := acc.byAsset
    byCategory := acc.byCategory
    byAssetCategory := acc.byAssetCategory
    fetched_at := now }

/-- Spec-side: the indexed endpoints of a raw descriptor list, in input
order. -/
def validParsed (raw : List DiscoveryEndpoint) : List ParsedEndpoint :=
  raw.filterMap mkParsed

/-- A required parameter is absent when its lookup is `undefined` or
`null` (`params[required] === undefined || params[required] === null`). -/
def paramAbsent (params : List (String × JVal)) (required : String) : Bool :=
  match alLookup params required with
  | none => true
  | some .jnull => true
  | some _ => false

def missingMsg (required : String) : String :=
  "Missing required parameter: " ++ required

def invalidMsg (key value : String) (allowedValues : List String) : String :=
  "Invalid value for '" ++ key ++ "': '" ++ value ++ "'. Allowed: " ++
    String.intercalate ", " allowedValues

/-- The first loop of `validateEndpointParams`: one error per absent
required parameter, in declaration order. -/
def missingErrors (endpoint : ParsedEndpoint) (params : List (String × JVal)) :
    List String :=
  endpoint.required_parameters.filterMap
    (fun required =>
      if paramAbsent params required then some (missingMsg required) else none)

/-- One entry of the second loop: a supplied value produces an error only
when it is a string, its parameter name is declared (`allowedValues &&
typeof value === "string"`), and the value is not allowed; `null` and
non-string entries are skipped. -/
def invalidErrorOf (endpoint : ParsedEndpoint) (p : String × JVal) : Option String :=
  match p.2 with
  | .jstr value =>
    match alLookup endpoint.parameters p.1 with
    | some allowedValues =>
      if value ∈ allowedValues then none
      else some (invalidMsg p.1 value allowedValues)
    | none => none
  | _ => none

/-- The second loop of `validateEndpointParams`, in supplied order. -/
def invalidErrors (endpoint : ParsedEndpoint) (params : List (String × JVal)) :
    List String :=
  params.filterMap (invalidErrorOf endpoint)

/-- `validateEndpointParams(endpoint, params)`: returns `(valid, errors)`. -/
def validateEndpointParams (endpoint : ParsedEndpoint)
    (params : List (String × JVal)) : Bool × List String :=
  let errors := missingErrors endpoint params ++ invalidErrors endpoint params
  (errors.isEmpty, errors)

/-- Spec-side: a supplied JS value lies in a parameter's allowed-value
set. -/
def jvInAllowed (v : JVal) (allowedValues : List String) : Prop :=
  ∃ s, v = .jstr s ∧ s ∈ allowedValues

/-! ## Summary builder (`cache/summary.ts`) -/

structure SummaryAsset where
  name : String
  endpoint_count : Nat
  categories : List String
deriving DecidableEq, Repr

structure DiscoverySummaryData where
  total_endpoints : Nat
  assets : List SummaryAsset
  category_by_asset : List (String × List String)
deriving DecidableEq, Repr

/-- `Set.add`: keep insertion order, ignore duplicates. -/
def addUniq (l : List String) (x : String) : List String :=
  if x ∈ l then l else l ++ [x]

/-- The per-asset accumulator of `generateSummary`, in `Map` insertion
order. -/
abbrev AssetAcc := List (String × (Nat × List String))

def accLimitsAsset (acc : AssetAcc)
    (a : String × List (String × List (String × MetricLimits))) : AssetAcc :=
  let data := (alLookup acc a.1).getD (0, [])
  let data := a.2.foldl
    (fun d c => (d.1 + c.2.length, addUniq d.2 c.1)) data
  alSet acc a.1 data

def accStaticPath (acc : AssetAcc) (staticPath : String) : AssetAcc :=
  let parts := jsSplit staticPath '/'
  if parts.length ≥ 4 then
    let asset := parts.getD 2 ""
    let category := parts.getD 3 ""
    let data := (alLookup acc asset).getD (0, [])
    alSet acc asset (data.1 + 1, addUniq data.2 category)
  else acc

/-- Insertion sort of summary-asset records by name (the model of the
`localeCompare` sort on the ASCII asset names this data carries). -/
def insertAsset (x : SummaryAsset) : List SummaryAsset → List SummaryAsset
  | [] => [x]
  | y :: ys => if strLe x.name y.name then x :: y :: ys else y :: insertAsset x ys

def sortAssets (l : List SummaryAsset) : List SummaryAsset :=
  l.foldr insertAsset []

/-- `generateSummary(limits, statics)`. -/
def generateSummary (limits : Option PlanLimits) (statics : List String) :
    DiscoverySummaryData :=
  let acc : AssetAcc :=
    match limits with
    | none => []
    | some l => l.foldl accLimitsAsset []
  let acc := statics.foldl accStaticPath acc
  let assets := acc.map (fun p => SummaryAsset.mk p.1 p.2.1 (sortStrings p.2.2))
  { total_endpoints := (acc.map (fun p => p.2.1)).sum
    assets := sortAssets assets
    category_by_asset := acc.map (fun p => (p.1, sortStrings p.2.2)) }

/-! ## Cache store (`cache/types.ts`, `cache/storage.ts`) -/

def CACHE_VERSION : Int := 1

def CACHE_TTL_DAYS : Int := 7

structure MyDiscoveryRawResponse where
  apiEndpoint : JVal
  plan_name : String
  rl_token : Int
  rl_window : String
deriving Repr

structure CacheMetadata where
  api_url : String
  key_pfx : String
  cached_at : Int
  expires_at : Int
  plan : UserPlan
deriving Repr

structure DiscoveryCacheSchema where
  version : Int
  metadata : CacheMetadata
  raw_response : MyDiscoveryRawResponse
  parsed : ParsedTriple
  summary : DiscoverySummaryData
deriving Repr

def planToString : UserPlan → String
  | .basic => "basic"
  | .advanced => "advanced"
  | .professional => "professional"
  | .premium => "premium"
  | .custom => "custom"
  | .unknown => "unknown"

def encodeRateLimit (rl : Option ApiRateLimit) : JVal :=
  match rl with
  | none => .jnull
  | some r => .jobj [("token", .jnum r.token), ("window", .jstr r.window)]

def encodeLimits (l : PlanLimits) : JVal :=
  .jobj (l.map (fun a =>
    (a.1, .jobj (a.2.map (fun c =>
      (c.1, .jobj (c.2.map (fun m =>
        (m.1, JVal.jobj (m.2.window.map (fun w => (w.1, JVal.jstr w.2))))))))))))

def encodeParsed (p : ParsedTriple) : JVal :=
  .jobj
    [("limits", match p.limits with | none => .jnull | some l => encodeLimits l),
     ("statics", .jarr (p.statics.map .jstr)),
     ("apiRateLimit", encodeRateLimit p.apiRateLimit)]

def encodeSummary (s : DiscoverySummaryData) : JVal :=
  .jobj
    [("total_endpoints", .jnum s.total_endpoints),
     ("assets", .jarr (s.assets.map (fun a =>
        .jobj [("name", .jstr a.name), ("endpoint_count", .jnum a.endpoint_count),
               ("categories", .jarr (a.categories.map .jstr))]))),
     ("category_by_asset", .jobj (s.category_by_asset.map (fun p =>
        (p.1, JVal.jarr (p.2.map JVal.jstr)))))]

def encodeRaw (r : MyDiscoveryRawResponse) : JVal :=
  .jobj
    [("apiEndpoint", r.apiEndpoint),
     ("plan", .jobj [("name", .jstr r.plan_name)]),
     ("apiRateLimit", .jobj [("token", .jnum r.rl_token), ("window", .jstr r.rl_window)])]

/-- The record built by `writeCache` (creation time `now`, expiry
`setDate(+7)`, i.e. exactly 7 days later in epoch milliseconds). -/
def mkCacheRecord (apiUrl apiKey : String) (rawResponse : MyDiscoveryRawResponse)
    (parsed : ParsedTriple) (summary : DiscoverySummaryData) (plan : UserPlan)
    (now : Int) : DiscoveryCacheSchema :=
  { version := CACHE_VERSION
    metadata :=
      { api_url := apiUrl
        key_pfx := strTake apiKey 8
        cached_at := now
        expires_at := now + CACHE_TTL_DAYS * 86400000
        plan := plan }
    raw_response := rawResponse
    parsed := parsed
    summary := summary }

/-- The JSON written by `writeCache` (timestamps as epoch milliseconds,
see the header comment). -/
def encodeCache (c : DiscoveryCacheSchema) : JVal :=
  .jobj
    [("version", .jnum c.version),
     ("metadata", .jobj
        [("api_url", .jstr c.metadata.api_url),
         ("api_key_prefix", .jstr c.metadata.key_pfx),
         ("cached_at", .jnum c.metadata.cached_at),
         ("expires_at", .jnum c.metadata.expires_at),
         ("plan", .jstr (planToString c.metadata.plan))]),
     ("raw_response", encodeRaw c.raw_response),
     ("parsed", encodeParsed c.parsed),
     ("summary", encodeSummary c.summary)]

/-- `readCache`: `file` is the JSON-parse result of the cache file
(`none` for a missing file or unparseable JSON).  The structural
validation only demands four truthy top-level fields; any exception
(e.g. a property read on a `null` file) is swallowed into `none`. -/
def readCache (file : Option JVal) : Option JVal :=
  match file with
  | none => none
  | some data =>
    let checked : Except String Bool := do
      let v ← jsGet data "version"
      let m ← jsGet data "metadata"
      let r ← jsGet data "raw_response"
      let s ← jsGet data "summary"
      pure (jvTruthyO v ∧ jvTruthyO m ∧ jvTruthyO r ∧ jvTruthyO s)
    match checked with
    | .error _ => none
    | .ok true => some data
    | .ok false => none

/-- `new Date(x)` on a cached timestamp: numbers are epoch ms, `null` is
epoch 0 (a JS quirk), everything else in the model is an invalid date. -/
def jsDateMsOf (v : Option JVal) : Option Int :=
  match v with
  | some (.jnum n) => some n
  | some .jnull => some 0
  | _ => none

/-- `isCacheValid(cache, apiUrl, apiKeyPrefix)` at time `now`; property
reads may throw on a malformed record, hence `Except`. -/
def isCacheValid (cache : JVal) (apiUrl keyPfx : String) (now : Int) :
    Except String Bool :=
  match jsGet cache "version" with
  | .error e => .error e
  | .ok v =>
    if ¬ jvIsNum v CACHE_VERSION then .ok false
    else
      match jsGet cache "metadata" with
      | .error e => .error e
      | .ok m =>
        match jsGetOn m "api_url" with
        | .error e => .error e
        | .ok au =>
          if ¬ jvIsStr au apiUrl then .ok false
          else
            match jsGetOn m "api_key_prefix" with
            | .error e => .error e
            | .ok pf =>
              if ¬ jvIsStr pf keyPfx then .ok false
              else
                match jsGetOn m "expires_at" with
                | .error e => .error e
                | .ok ea =>
                  match jsDateMsOf ea with
                  | none => .ok false
                  | some t => .ok (decide (¬ t < now))

/-! ## Raw-response extraction (`cache/summary.ts`) and the coordinator
(`permissions.ts`) -/

/-- `extractRawResponse(apiResponse)`: `null` unless `apiEndpoint` is a
truthy object; the `plan.name` and `apiRateLimit` fields fall back to
defaults through optional chaining and `||`. -/
def extractRawResponse (apiResponse : JVal) : Option MyDiscoveryRawResponse :=
  let body : Except String (Option MyDiscoveryRawResponse) := do
    let ae ← jsGet apiResponse "apiEndpoint"
    let planF ← jsGet apiResponse "plan"
    let rlF ← jsGet apiResponse "apiRateLimit"
    match ae with
    | some v =>
      if jvTruthy v ∧ jvTypeofObject v then
        let nm :=
          match planF with
          | some p =>
            match jvField p "name" with
            | some (.jstr s) => if s = "" then "unknown" else s
            | _ => "unknown"
          | none => "unknown"
        let tok :=
          match rlF with
          | some r => match jvField r "token" with | some (.jnum n) => n | _ => 0
          | none => 0
        let win :=
          match rlF with
          | some r =>
            match jvField r "window" with
            | some (.jstr s) => if s = "" then "day" else s
            | _ => "day"
          | none => "day"
        pure (some ⟨v, nm, tok, win⟩)
      else pure none
    | none => pure none
  match body with
  | .error _ => none
  | .ok r => r

structure PermissionState where
  authenticated : Bool
  api_key : Option String
  cached_at : Option Int
  plan : UserPlan
  plan_limits_loaded : Bool
  from_cache : Bool
deriving DecidableEq, Repr

def defaultPermissionState : PermissionState :=
  { authenticated := false, api_key := none, cached_at := none, plan := .unknown,
    plan_limits_loaded := false, from_cache := false }

structure InitializeResult where
  success : Bool
  error : Option String
  from_cache : Bool
  cache_status : String
  summary : Option JVal
deriving Repr

structure DiscoveryFetchResult where
  success : Bool
  error : Option String
deriving DecidableEq, Repr

/-- The `cache && isCacheValid(cache, apiUrl, apiKeyPrefix)` gate of
`initializePermissions`: the validated cache record, if any. -/
def cacheGate (file : Option JVal) (apiUrl keyPfx : String) (now : Int) :
    Except String (Option JVal) :=
  match readCache file with
  | none => .ok none
  | some c =>
    match isCacheValid c apiUrl keyPfx now with
    | .error e => .error e
    | .ok true => .ok (some c)
    | .ok false => .ok none

/-- Best-effort typing of a cached `parsed.limits` fragment (the source
stores it behind an unchecked cast; no embedded claim inspects a decoded
value). -/
def decodeLimits (j : Option JVal) : Option PlanLimits :=
  match j with
  | some (.jobj assets) =>
    some (assets.foldr
      (fun a acc =>
        match a.2 with
        | .jobj cats =>
          (a.1, cats.foldr
            (fun c acc2 =>
              match c.2 with
              | .jobj mets =>
                (c.1, mets.foldr
                  (fun m acc3 =>
                    match m.2 with
                    | .jobj ws =>
                      (m.1, MetricLimits.mk (ws.foldr
                        (fun w acc4 =>
                          match w.2 with
                          | .jstr s => (w.1, s) :: acc4
                          | _ => acc4) [])) :: acc3
                    | _ => acc3) []) :: acc2
              | _ => acc2) []) :: acc
        | _ => acc) [])
  | _ => none

def decodeStatics (j : Option JVal) : List String :=
  match j with
  | some (.jarr xs) =>
    xs.foldr (fun v acc => match v with | .jstr s => s :: acc | _ => acc) []
  | _ => []

def decodeRateLimit (j : Option JVal) : Option ApiRateLimit :=
  match j with
  | some (.jobj fs) =>
    match alLookup fs "token", alLookup fs "window" with
    | some (.jnum t), some (.jstr w) => some ⟨t, w⟩
    | _, _ => none
  | _ => none

def decodePlan (j : Option JVal) : UserPlan :=
  match j with
  | some (.jstr s) =>
    if s = "basic" then .basic
    else if s = "advanced" then .advanced
    else if s = "professional" then .professional
    else if s = "premium" then .premium
    else if s = "custom" then .custom
    else .unknown
  | _ => .unknown

/-- `getCacheStatus(cache, true)` needs the cache age in days. -/
def cacheAgeDays (c : JVal) (now : Int) : Int :=
  match jvField c "metadata" with
  | some m =>
    match jvField m "cached_at" with
    | some (.jnum t) => Int.fdiv (now - t) 86400000
    | _ => 0
  | none => 0

/-- The result of one `initializePermissions` call: the returned value,
the new `permissionState`, the new `planLimitsState`, and the cache file
written by the call, if any.  A thrown `TypeError` on the cache-hit path
(which the source does not guard) surfaces as `Except.error`. -/
def initializePermissions (apiKey apiUrl : String) (file : Option JVal)
    (disc : DiscoveryFetchResult) (planWire : Option (Nat × Option JVal)) (now : Int)
    (prevPerm : PermissionState) (prevPlan : PlanLimitsState) :
    Except String (InitializeResult × PermissionState × PlanLimitsState × Option JVal) :=
  let keyPfx := strTake apiKey 8
  match cacheGate file apiUrl keyPfx now with
  | .error e => .error e
  | .ok (some cache) =>
    -- Valid cache: load plan limits from the cached fragment (lines 68-103,
    -- outside any try/catch).
    (do
      let parsedF ← jsGet cache "parsed"
      let limitsJ ← jsGetOn parsedF "limits"
      let staticsJ ← jsGetOn parsedF "statics"
      let rlJ ← jsGetOn parsedF "apiRateLimit"
      let metaF ← jsGet cache "metadata"
      let planJ ← jsGetOn metaF "plan"
      let newPlan : PlanLimitsState :=
        { loaded := true, limits := decodeLimits limitsJ, plan := decodePlan planJ,
          statics := decodeStatics staticsJ, apiRateLimit := decodeRateLimit rlJ,
          fetched_at := some now }
      let summaryJ ← jsGet cache "summary"
      let perm : PermissionState :=
        { authenticated := true, api_key := some apiKey, cached_at := some now,
          plan := decodePlan planJ, plan_limits_loaded := true, from_cache := true }
      pure ({ success := true, error := none, from_cache := true,
              cache_status := "cached (" ++ toString (cacheAgeDays cache now) ++ "d old)",
              summary := summaryJ },
            perm, newPlan, none))
  | .ok none =>
    -- Cache miss or invalid: fetch fresh data (the try/catch block; nothing
    -- in the model throws inside it).
    if ¬ disc.success then
      .ok ({ success := false, error := disc.error, from_cache := false,
             cache_status := "none", summary := none },
           prevPerm, prevPlan, none)
    else
      let fetched := fetchPlanLimits planWire now prevPlan
      let planResult := fetched.1
      let planState := fetched.2
      let rawTruthy :=
        match planResult.rawResponse with
        | some v => jvTruthy v
        | none => false
      let authPerm : PermissionState :=
        { authenticated := true, api_key := some apiKey, cached_at := some now,
          plan := planState.plan, plan_limits_loaded := planState.loaded,
          from_cache := false }
      if planResult.success && rawTruthy && planResult.parsed.isSome then
        match planResult.rawResponse, planResult.parsed with
        | some raw, some parsed =>
          match extractRawResponse raw with
          | some rawR =>
            let summary := generateSummary parsed.limits parsed.statics
            let record := mkCacheRecord apiUrl apiKey rawR parsed summary
              (planResult.plan.getD .unknown) now
            .ok ({ success := true, error := none, from_cache := false,
                   cache_status := "fresh", summary := some (encodeSummary summary) },
                 authPerm, planState, some (encodeCache record))
          | none =>
            .ok ({ success := true, error := none, from_cache := false,
                   cache_status := "none", summary := none },
                 authPerm, planState, none)
        | _, _ =>
          .ok ({ success := true, error := none, from_cache := false,
                 cache_status := "none", summary := none },
               authPerm, planState, none)
      else
        .ok ({ success := true, error := none, from_cache := false,
               cache_status := "none", summary := none },
             authPerm, planState, none)

/-! ## Theorems -/

lemma takeWhile_all_append (p : Char → Bool) (ds : List Char) (u : Char)
    (h : ∀ c ∈ ds, p c = true) (hu : p u = false) :
    (ds ++ [u]).takeWhile p = ds := by
  induction ds with
  | nil => simp [List.takeWhile, hu]
  | cons a t ih =>
    have ha := h a (by simp)
    simp only [List.cons_append, List.takeWhile_cons, ha, if_true]
    rw [ih (fun c hc => h c (by simp [hc]))]

lemma dropWhile_all_append (p : Char → Bool) (ds : List Char) (u : Char)
    (h : ∀ c ∈ ds, p c = true) (hu : p u = false) :
    (ds ++ [u]).dropWhile p = [u] := by
  induction ds with
  | nil => simp [List.dropWhile, hu]
  | cons a t ih =>
    have ha := h a (by simp)
    simp only [List.cons_append, List.dropWhile_cons, ha, if_true]
    exact ih (fun c hc => h c (by simp [hc]))

lemma unit_not_digit (u : Char) (hu : u = 'Y' ∨ u = 'M' ∨ u = 'W' ∨ u = 'D') :
    isDigit u = false := by
  rcases hu with h | h | h | h <;> subst h <;> decide

lemma matchDurAux_nil (x : List Char) : matchDurAux [] x = none := by
  cases x <;> rfl

lemma matchDurAux_cons_nil (d : Char) (ds : List Char) :
    matchDurAux (d :: ds) [] = none := rfl

lemma matchDurAux_cons_two (d : Char) (ds : List Char) (a b : Char) (t : List Char) :
    matchDurAux (d :: ds) (a :: b :: t) = none := rfl

lemma matchDurAux_cons_one (d : Char) (ds : List Char) (u : Char) :
    matchDurAux (d :: ds) [u] =
      if u = 'Y' ∨ u = 'M' ∨ u = 'W' ∨ u = 'D' then
        some (digitsVal (d :: ds), u)
      else none := rfl

/-- Soundness and completeness of the regex matcher with respect to the
spec-side token grammar. -/
lemma matchDuration_eq_some_iff (s : String) (n : Nat) (u : Char) :
    matchDuration s = some (n, u) ↔ IsDurToken s n u := by
  constructor
  · intro h
    unfold matchDuration at h
    cases hd : s.data with
    | nil => rw [hd] at h; exact Option.noConfusion h
    | cons c rest =>
      rw [hd] at h
      simp only [matchDurTop] at h
      by_cases hc : c = 'P'
      · subst hc
        rw [if_pos rfl] at h
        cases htw : rest.takeWhile isDigit with
        | nil => rw [htw, matchDurAux_nil] at h; exact Option.noConfusion h
        | cons d ds =>
          cases hdw : rest.dropWhile isDigit with
          | nil =>
            rw [htw, hdw, matchDurAux_cons_nil] at h
            exact Option.noConfusion h
          | cons u' tail =>
            cases tail with
            | nil =>
              rw [htw, hdw, matchDurAux_cons_one] at h
              by_cases hu : u' = 'Y' ∨ u' = 'M' ∨ u' = 'W' ∨ u' = 'D'
              · rw [if_pos hu] at h
                obtain ⟨hn, hu'⟩ := Prod.mk.injEq .. ▸ Option.some.injEq .. ▸ h
                subst hu'
                refine ⟨d :: ds, ?_, by simp, ?_, hn, hu⟩
                · rw [hd, ← htw, ← hdw, List.cons_append,
                      List.takeWhile_append_dropWhile isDigit rest]
                · intro c hc
                  rw [← htw] at hc
                  exact List.mem_takeWhile_imp hc
              · rw [if_neg hu] at h
                exact Option.noConfusion h
            | cons _ _ =>
              rw [htw, hdw, matchDurAux_cons_two] at h
              exact Option.noConfusion h
      · rw [if_neg hc] at h
        exact Option.noConfusion h
  · rintro ⟨ds, hdata, hne, hdig, hval, hu⟩
    have hnd := unit_not_digit u hu
    rw [List.cons_append] at hdata
    unfold matchDuration
    rw [hdata]
    simp only [matchDurTop, if_pos rfl]
    rw [takeWhile_all_append isDigit ds u hdig hnd,
        dropWhile_all_append isDigit ds u hdig hnd]
    cases ds with
    | nil => exact absurd rfl hne
    | cons d ds' => simp [matchDurAux_cons_one, hu, hval]

lemma matchDuration_none_of_not_token (s : String)
    (h : ∀ n u, ¬ IsDurToken s n u) : matchDuration s = none := by
  cases hm : matchDuration s with
  | none => rfl
  | some p =>
    exact absurd ((matchDuration_eq_some_iff s p.1 p.2).mp (by rw [hm])) (h p.1 p.2)

/-- For a grammatical non-sentinel token the codec yields exactly the
claimed calendar subtraction. -/
lemma parseDurationToDate_of_token (now : JSDate) (tok : String) (n : Nat) (u : Char)
    (ht : IsDurToken tok n u) (hne : tok ≠ "P0D") :
    parseDurationToDate now tok = some (calendarSub now n u) := by
  have hm := (matchDuration_eq_some_iff tok n u).mpr ht
  obtain ⟨ds, hdata, hne', hdig, hval, hu⟩ := ht
  unfold parseDurationToDate calendarSub
  rw [if_neg hne, hm]
  rcases hu with h | h | h | h <;> subst h <;> simp

/-- Claim C8: `parseDurationToDate` maps the unlimited sentinel `"P0D"`
to `null`; a token consisting of one decimal quantity `n` and a unit
letter in `{Y, M, W, D}` decodes to "now minus `n` calendar units"
(calendar-field subtraction for years and months, 7-day weeks), and any
token outside that grammar decodes to `null`. -/
theorem parseDurationToDate_correct (now : JSDate) (tok : String) :
    (tok = "P0D" → parseDurationToDate now tok = none)
  ∧ ((∀ n u, ¬ IsDurToken tok n u) → parseDurationToDate now tok = none)
  ∧ (∀ n u, IsDurToken tok n u → tok ≠ "P0D" →
      parseDurationToDate now tok = some (calendarSub now n u)) := by
  refine ⟨fun h => by simp [parseDurationToDate, h], fun h => ?_,
    fun n u ht hne => parseDurationToDate_of_token now tok n u ht hne⟩
  unfold parseDurationToDate
  rw [matchDuration_none_of_not_token tok h]
  by_cases h0 : tok = "P0D" <;> simp [h0]

/-- Witness for C8 at `now = 2024-06-15`, token `"P3Y"`. -/
theorem parseDurationToDate_correct_witness :
    parseDurationToDate (mkJSDate 2024 5 15 0) "P3Y" = some (mkJSDate 2021 5 15 0) := by
  have h := (parseDurationToDate_correct (mkJSDate 2024 5 15 0) "P3Y").2.2 3 'Y'
    ⟨['3'], by decide, by decide, by decide, by decide, by decide⟩ (by decide)
  rw [h]
  decide

lemma bumpCount_eq (acc : DurCounts) (d : String) :
    bumpCount acc d =
      ⟨acc.p0d + (if d = "P0D" then 1 else 0),
       acc.p3y + (if d = "P3Y" then 1 else 0),
       acc.p1d + (if d = "P1D" then 1 else 0),
       acc.total + 1⟩ := by
  unfold bumpCount
  by_cases h0 : d = "P0D"
  · simp [h0]
  · by_cases h3 : d = "P3Y"
    · simp [h0, h3]
    · by_cases h1 : d = "P1D"
      · simp [h0, h3, h1]
      · simp [h0, h3, h1]

lemma foldl_bumpCount (es : List String) (acc : DurCounts) :
    es.foldl bumpCount acc =
      ⟨acc.p0d + es.count "P0D", acc.p3y + es.count "P3Y",
       acc.p1d + es.count "P1D", acc.total + es.length⟩ := by
  induction es generalizing acc with
  | nil => simp [List.count_nil]
  | cons e es ih =>
    rw [List.foldl_cons, ih, bumpCount_eq]
    simp only [List.count_cons, List.length_cons, DurCounts.mk.injEq]
    refine ⟨?_, ?_, ?_, by omega⟩
    all_goals
      rcases eq_or_ne e "P0D" with h0 | h0 <;> rcases eq_or_ne e "P3Y" with h3 | h3 <;>
        rcases eq_or_ne e "P1D" with h1 | h1 <;> simp_all [beq_iff_eq] <;> omega

lemma foldWindows_eq (acc : DurCounts) (ws : List (String × String)) :
    foldWindows acc ws = (ws.map Prod.snd).foldl bumpCount acc := by
  rw [foldWindows, List.foldl_map]

lemma foldMetrics_eq (mets : List (String × MetricLimits)) : ∀ acc : DurCounts,
    foldMetrics acc mets =
      (mets.flatMap (fun m => m.2.window.map Prod.snd)).foldl bumpCount acc := by
  induction mets with
  | nil => intro acc; rfl
  | cons m mets ih =>
    intro acc
    have step : foldMetrics acc (m :: mets) = foldMetrics (foldWindows acc m.2.window) mets := by
      simp [foldMetrics]
    rw [step, ih, List.flatMap_cons, List.foldl_append, foldWindows_eq]

lemma foldCategories_eq (cats : List (String × List (String × MetricLimits))) :
    ∀ acc : DurCounts,
    foldCategories acc cats =
      (cats.flatMap (fun c => c.2.flatMap (fun m => m.2.window.map Prod.snd))).foldl
        bumpCount acc := by
  induction cats with
  | nil => intro acc; rfl
  | cons c cats ih =>
    intro acc
    have step : foldCategories acc (c :: cats) = foldCategories (foldMetrics acc c.2) cats := by
      simp [foldCategories]
    rw [step, ih, List.flatMap_cons, List.foldl_append, foldMetrics_eq]

lemma collectDurationCounts_eq (limits : PlanLimits) :
    collectDurationCounts limits =
      ⟨(allWindowEntries limits).count "P0D", (allWindowEntries limits).count "P3Y",
       (allWindowEntries limits).count "P1D", (allWindowEntries limits).length⟩ := by
  have key : ∀ (l : PlanLimits) (acc : DurCounts),
      l.foldl (fun acc a => foldCategories acc a.2) acc =
        (allWindowEntries l).foldl bumpCount acc := by
    intro l
    induction l with
    | nil => intro acc; simp [allWindowEntries]
    | cons a l ih =>
      intro acc
      have step : (a :: l).foldl (fun acc a => foldCategories acc a.2) acc =
          l.foldl (fun acc a => foldCategories acc a.2) (foldCategories acc a.2) := by
        simp
      rw [step, ih]
      simp only [allWindowEntries, List.flatMap_cons, List.foldl_append]
      rw [foldCategories_eq]
  rw [collectDurationCounts, key, foldl_bumpCount]
  simp

/-- Claim C4: the tier-detection heuristic returns `"basic"` for a null
or window-entry-free table, and otherwise applies the >50% one-day,
>50% unlimited, >30% three-year thresholds, in exactly that priority
order, over the fractions of all window entries. -/
theorem detectPlanFromLimits_correct (limits : Option PlanLimits) :
    detectPlanFromLimits limits = detectPlanSpec limits := by
  cases limits with
  | none => rfl
  | some l =>
    rw [detectPlanFromLimits, detectPlanSpec, collectDurationCounts_eq]

lemma getPlanLimit_none_isSome_iff (st : PlanLimitsState) (path : String) :
    (getPlanLimit st path none).isSome = true ↔ HasWindowEntry st path := by
  unfold getPlanLimit getMetricLimits HasWindowEntry
  cases hl : st.limits with
  | none => simp
  | some tbl =>
    cases hp : parseEndpointPath path with
    | none => simp
    | some p =>
      cases hc : alLookup tbl p.asset with
      | none => simp [hc]
      | some cats =>
        cases hm : alLookup cats p.category with
        | none => simp [hc, hm]
        | some mets =>
          cases hml : alLookup mets p.metric with
          | none => simp [hc, hm, hml]
          | some ml =>
            cases hw : ml.window with
            | nil => simp [hc, hm, hml, firstWindow, hw]
            | cons w ws => simp [hc, hm, hml, firstWindow, hw]

/-- Claim C1: `hasEndpointAccess` is exactly the claimed cascade — true
when no permission state is loaded or the tier is unknown, then static
membership, then the basic-with-null-table denial, then presence of a
window entry for the path, and finally true exactly for the premium,
professional and custom tiers. -/
theorem hasEndpointAccess_correct (st : PlanLimitsState) (path : String) :
    hasEndpointAccess st path = true ↔ SpecAccess st path := by
  unfold hasEndpointAccess SpecAccess
  by_cases h1 : ¬ st.loaded ∨ st.plan = .unknown
  · rw [if_pos h1, if_pos h1]
    simp
  · rw [if_neg h1, if_neg h1]
    by_cases h2 : path ∈ st.statics
    · rw [if_pos h2, if_pos h2]
      simp
    · rw [if_neg h2, if_neg h2]
      by_cases h3 : st.plan = .basic ∧ st.limits = none
      · rw [if_pos h3, if_pos h3]
        simp
      · rw [if_neg h3, if_neg h3]
        by_cases h4 : HasWindowEntry st path
        · rw [if_pos ((getPlanLimit_none_isSome_iff st path).mpr h4), if_pos h4]
          simp
        · rw [if_neg (fun hs => h4 ((getPlanLimit_none_isSome_iff st path).mp hs)),
              if_neg h4]
          by_cases h5 : st.plan = .premium ∨ st.plan = .professional ∨ st.plan = .custom
          · rw [if_pos h5]
            simp [h5]
          · rw [if_neg h5]
            simp [h5]


lemma invalidErrorOf_eq_some_iff (ep : ParsedEndpoint) (p : String × JVal)
    (e : String) :
    invalidErrorOf ep p = some e ↔
      ∃ s allowedValues, p.2 = JVal.jstr s ∧
        alLookup ep.parameters p.1 = some allowedValues ∧ s ∉ allowedValues ∧
        e = invalidMsg p.1 s allowedValues := by
  unfold invalidErrorOf
  cases hv : p.2 with
  | jstr s =>
    cases hl : alLookup ep.parameters p.1 with
    | none => simp
    | some allowed =>
      by_cases hmem : s ∈ allowed
      · simp [hmem]
      · simp only [hmem, if_false, Option.some.injEq]
        constructor
        · intro he
          exact ⟨s, allowed, rfl, rfl, hmem, he.symm⟩
        · rintro ⟨s', al', hs', hal', hm', he'⟩
          obtain rfl : s = s' := JVal.jstr.injEq .. ▸ hs'
          obtain rfl : allowed = al' := Option.some.injEq .. ▸ hal'
          exact he'.symm
  | jnull => simp
  | jbool b => simp
  | jnum n => simp
  | jarr xs => simp
  | jobj fs => simp

lemma mem_missingErrors_iff (ep : ParsedEndpoint) (ps : List (String × JVal))
    (e : String) :
    e ∈ missingErrors ep ps ↔
      ∃ req ∈ ep.required_parameters, paramAbsent ps req = true ∧ e = missingMsg req := by
  unfold missingErrors
  rw [List.mem_filterMap]
  constructor
  · rintro ⟨req, hreq, hf⟩
    by_cases h : paramAbsent ps req
    · rw [if_pos h] at hf
      exact ⟨req, hreq, h, (Option.some.injEq .. ▸ hf).symm⟩
    · rw [if_neg h] at hf
      exact Option.noConfusion hf
  · rintro ⟨req, hreq, ha, he⟩
    exact ⟨req, hreq, by rw [if_pos ha, he]⟩

lemma mem_invalidErrors_iff (ep : ParsedEndpoint) (ps : List (String × JVal))
    (e : String) :
    e ∈ invalidErrors ep ps ↔
      ∃ k s allowedValues, (k, JVal.jstr s) ∈ ps ∧
        alLookup ep.parameters k = some allowedValues ∧ s ∉ allowedValues ∧
        e = invalidMsg k s allowedValues := by
  unfold invalidErrors
  rw [List.mem_filterMap]
  constructor
  · rintro ⟨p, hp, hf⟩
    obtain ⟨s, al, hs, hal, hm, he⟩ := (invalidErrorOf_eq_some_iff ep p e).mp hf
    refine ⟨p.1, s, al, ?_, hal, hm, he⟩
    have : p = (p.1, JVal.jstr s) := by
      obtain ⟨k0, v0⟩ := p
      simp only at hs
      rw [hs]
    exact this ▸ hp
  · rintro ⟨k, s, al, hmem, hal, hm, he⟩
    exact ⟨(k, JVal.jstr s), hmem,
      (invalidErrorOf_eq_some_iff ep (k, JVal.jstr s) e).mpr ⟨s, al, rfl, hal, hm, he⟩⟩

/-- Counterexample to claim C9 as stated: a supplied *non-string* value
of a declared parameter that is not in the allowed-value set is not
flagged — `{ window: 5 }` against allowed values `["day", "hour"]`
validates cleanly. -/
theorem validateEndpointParams_nonstring_cex :
    validateEndpointParams
        ⟨"/v1/btc/market-data/price", "btc", "market-data", "price",
          [("window", ["day", "hour"])], ["window"]⟩
        [("window", JVal.jnum 5)] = (true, []) ∧
    alLookup [("window", JVal.jnum 5)] "window" = some (JVal.jnum 5) ∧
    alLookup ([("window", ["day", "hour"])] : List (String × List String)) "window" =
      some ["day", "hour"] ∧
    ¬ jvInAllowed (JVal.jnum 5) ["day", "hour"] := by
  refine ⟨rfl, rfl, rfl, ?_⟩
  rintro ⟨s, hs, _⟩
  exact JVal.noConfusion hs

/-- Claim C9 (amended): `validateEndpointParams` reports an error for
every required parameter that is absent (undefined or null) and an error
for every supplied *string* value of a declared parameter not in that
parameter's allowed-value set; `null`, non-string, and undeclared-name
entries are never flagged, every reported error is of one of those two
forms, and the result is valid exactly when the error list is empty. -/
theorem validateEndpointParams_spec (ep : ParsedEndpoint)
    (ps : List (String × JVal)) :
    ((validateEndpointParams ep ps).1 = true ↔ (validateEndpointParams ep ps).2 = [])
  ∧ (∀ req ∈ ep.required_parameters, paramAbsent ps req = true →
      missingMsg req ∈ (validateEndpointParams ep ps).2)
  ∧ (∀ k s allowedValues, (k, JVal.jstr s) ∈ ps →
      alLookup ep.parameters k = some allowedValues → s ∉ allowedValues →
      invalidMsg k s allowedValues ∈ (validateEndpointParams ep ps).2)
  ∧ (∀ e ∈ (validateEndpointParams ep ps).2,
      (∃ req ∈ ep.required_parameters, paramAbsent ps req = true ∧ e = missingMsg req)
    ∨ (∃ k s allowedValues, (k, JVal.jstr s) ∈ ps ∧
        alLookup ep.parameters k = some allowedValues ∧ s ∉ allowedValues ∧
        e = invalidMsg k s allowedValues)) := by
  refine ⟨?_, ?_, ?_, ?_⟩
  · simp [validateEndpointParams, List.isEmpty_iff]
  · intro req hreq ha
    simp only [validateEndpointParams, List.mem_append]
    exact Or.inl ((mem_missingErrors_iff ep ps (missingMsg req)).mpr ⟨req, hreq, ha, rfl⟩)
  · intro k s al hmem hal hm
    simp only [validateEndpointParams, List.mem_append]
    exact Or.inr ((mem_invalidErrors_iff ep ps (invalidMsg k s al)).mpr
      ⟨k, s, al, hmem, hal, hm, rfl⟩)
  · intro e he
    simp only [validateEndpointParams, List.mem_append] at he
    rcases he with h | h
    · exact Or.inl ((mem_missingErrors_iff ep ps e).mp h)
    · exact Or.inr ((mem_invalidErrors_iff ep ps e).mp h)

/-- Witness for the amended C9 theorem: a missing required parameter and
a disallowed string value are both reported, and validity fails. -/
theorem validateEndpointParams_spec_witness :
    missingMsg "window" ∈
      (validateEndpointParams
        ⟨"/v1/btc/market-data/price", "btc", "market-data", "price",
          [("window", ["day", "hour"]), ("exchange", ["binance"])],
          ["window"]⟩
        [("exchange", JVal.jstr "bitmex")]).2 ∧
    invalidMsg "exchange" "bitmex" ["binance"] ∈
      (validateEndpointParams
        ⟨"/v1/btc/market-data/price", "btc", "market-data", "price",
          [("window", ["day", "hour"]), ("exchange", ["binance"])],
          ["window"]⟩
        [("exchange", JVal.jstr "bitmex")]).2 := by
  constructor
  · exact (validateEndpointParams_spec _ _).2.1 "window" (by simp) (by rfl)
  · exact (validateEndpointParams_spec _ _).2.2.1 "exchange" "bitmex" ["binance"]
      (by simp) (by rfl) (by simp)

lemma alLookupList_alAppend (m : List (String × List ParsedEndpoint)) (k' : String)
    (e : ParsedEndpoint) (k : String) :
    alLookupList (alAppend m k' e) k =
      if k = k' then alLookupList m k ++ [e] else alLookupList m k := by
  induction m with
  | nil =>
    unfold alAppend alLookupList alLookup
    by_cases h : k = k'
    · simp [h]
    · rw [if_neg h, if_neg (fun hh : k' = k => h hh.symm)]
      rfl
  | cons p m ih =>
    obtain ⟨k0, l0⟩ := p
    unfold alAppend
    by_cases h0 : k0 = k'
    · rw [if_pos h0]
      unfold alLookupList alLookup
      by_cases hk : k0 = k
      · have : k = k' := hk ▸ h0
        simp [hk, this]
      · have : ¬ k = k' := fun hh => hk (hh ▸ h0.symm ▸ rfl)
        simp only [hk, if_false]
        rw [if_neg this]
    · rw [if_neg h0]
      unfold alLookupList alLookup
      by_cases hk : k0 = k
      · have : ¬ k = k' := fun hh => h0 (hk.symm ▸ hh ▸ rfl)
        simp only [hk, if_true]
        rw [if_neg this]
      · simp only [hk, if_false]
        exact ih

lemma catalogFold_spec (raw : List DiscoveryEndpoint) : ∀ acc : CatalogAcc,
    (raw.foldl catalogStep acc).endpoints = acc.endpoints ++ validParsed raw
  ∧ (∀ k, alLookupList (raw.foldl catalogStep acc).byAsset k =
      alLookupList acc.byAsset k ++ (validParsed raw).filter (fun e => e.asset == k))
  ∧ (∀ k, alLookupList (raw.foldl catalogStep acc).byCategory k =
      alLookupList acc.byCategory k ++ (validParsed raw).filter (fun e => e.category == k))
  ∧ (∀ k, alLookupList (raw.foldl catalogStep acc).byAssetCategory k =
      alLookupList acc.byAssetCategory k ++
        (validParsed raw).filter (fun e => (e.asset ++ "/" ++ e.category) == k)) := by
  induction raw with
  | nil =>
    intro acc
    refine ⟨by simp [validParsed], fun k => by simp [validParsed],
            fun k => by simp [validParsed], fun k => by simp [validParsed]⟩
  | cons ep raw ih =>
    intro acc
    rw [List.foldl_cons]
    cases hm : mkParsed ep with
    | none =>
      have hstep : catalogStep acc ep = acc := by unfold catalogStep; rw [hm]
      have hvp : validParsed (ep :: raw) = validParsed raw := by
        unfold validParsed
        rw [List.filterMap_cons, hm]
      rw [hstep]
      obtain ⟨ihe, iha, ihc, ihac⟩ := ih acc
      exact ⟨by rw [ihe, hvp], fun k => by rw [iha, hvp],
             fun k => by rw [ihc, hvp], fun k => by rw [ihac, hvp]⟩
    | some p =>
      have hstep : catalogStep acc ep =
          { endpoints := acc.endpoints ++ [p]
            byAsset := alAppend acc.byAsset p.asset p
            byCategory := alAppend acc.byCategory p.category p
            byAssetCategory := alAppend acc.byAssetCategory (p.asset ++ "/" ++ p.category) p } := by
        unfold catalogStep
        rw [hm]
      have hvp : validParsed (ep :: raw) = p :: validParsed raw := by
        unfold validParsed
        rw [List.filterMap_cons, hm]
      rw [hstep]
      obtain ⟨ihe, iha, ihc, ihac⟩ := ih
        { endpoints := acc.endpoints ++ [p]
          byAsset := alAppend acc.byAsset p.asset p
          byCategory := alAppend acc.byCategory p.category p
          byAssetCategory := alAppend acc.byAssetCategory (p.asset ++ "/" ++ p.category) p }
      refine ⟨?_, fun k => ?_, fun k => ?_, fun k => ?_⟩
      · rw [ihe, hvp]
        simp
      · rw [iha k, hvp, List.filter_cons]
        simp only [alLookupList_alAppend]
        by_cases hk : p.asset = k
        · rw [if_pos hk.symm]
          simp [hk]
        · rw [if_neg (fun hh => hk hh.symm)]
          simp [hk]
      · rw [ihc k, hvp, List.filter_cons]
        simp only [alLookupList_alAppend]
        by_cases hk : p.category = k
        · rw [if_pos hk.symm]
          simp [hk]
        · rw [if_neg (fun hh => hk hh.symm)]
          simp [hk]
      · rw [ihac k, hvp, List.filter_cons]
        simp only [alLookupList_alAppend]
        by_cases hk : p.asset ++ "/" ++ p.category = k
        · rw [if_pos hk.symm]
          simp [hk]
        · rw [if_neg (fun hh => hk hh.symm)]
          simp [hk]

lemma parseEndpoints_endpoints (raw : List DiscoveryEndpoint) (now : Int) :
    (parseEndpoints raw now).endpoints = validParsed raw := by
  unfold parseEndpoints
  exact (catalogFold_spec raw ⟨[], [], [], []⟩).1

lemma parseEndpoints_byAsset (raw : List DiscoveryEndpoint) (now : Int) (k : String) :
    alLookupList (parseEndpoints raw now).byAsset k =
      (validParsed raw).filter (fun e => e.asset == k) := by
  unfold parseEndpoints
  have h := (catalogFold_spec raw ⟨[], [], [], []⟩).2.1 k
  simpa [alLookupList, alLookup] using h

lemma parseEndpoints_byCategory (raw : List DiscoveryEndpoint) (now : Int) (k : String) :
    alLookupList (parseEndpoints raw now).byCategory k =
      (validParsed raw).filter (fun e => e.category == k) := by
  unfold parseEndpoints
  have h := (catalogFold_spec raw ⟨[], [], [], []⟩).2.2.1 k
  simpa [alLookupList, alLookup] using h

lemma parseEndpoints_byAssetCategory (raw : List DiscoveryEndpoint) (now : Int)
    (k : String) :
    alLookupList (parseEndpoints raw now).byAssetCategory k =
      (validParsed raw).filter (fun e => (e.asset ++ "/" ++ e.category) == k) := by
  unfold parseEndpoints
  have h := (catalogFold_spec raw ⟨[], [], [], []⟩).2.2.2 k
  simpa [alLookupList, alLookup] using h

lemma mkParsed_some_elim (d : DiscoveryEndpoint) (p : ParsedEndpoint)
    (h : mkParsed d = some p) :
    p.path = d.path ∧ p.parameters = d.parameters ∧
    p.required_parameters = d.required_parameters ∧
    ¬ (jsSplit d.path '/').length < 5 ∧
    p.asset = (jsSplit d.path '/').getD 2 "" ∧
    p.category = (jsSplit d.path '/').getD 3 "" := by
  unfold mkParsed at h
  by_cases hlen : (jsSplit d.path '/').length < 5
  · rw [if_pos hlen] at h
    exact Option.noConfusion h
  · rw [if_neg hlen] at h
    have hp := (Option.some.injEq .. ▸ h).symm
    subst hp
    exact ⟨rfl, rfl, rfl, hlen, rfl, rfl⟩

lemma mkParsed_determined (d : DiscoveryEndpoint) (p : ParsedEndpoint)
    (h : mkParsed d = some p) :
    d = ⟨p.path, p.parameters, p.required_parameters⟩ := by
  obtain ⟨h1, h2, h3, -⟩ := mkParsed_some_elim d p h
  cases d
  simp_all

lemma count_validParsed (raw : List DiscoveryEndpoint) (p : ParsedEndpoint) :
    (validParsed raw).count p = raw.countP (fun d => decide (mkParsed d = some p)) := by
  induction raw with
  | nil => rfl
  | cons d raw ih =>
    unfold validParsed at ih ⊢
    rw [List.filterMap_cons, List.countP_cons]
    cases hm : mkParsed d with
    | none => simpa using ih
    | some q =>
      by_cases hq : q = p
      · subst hq
        simp [List.count_cons, ih]
      · simp [List.count_cons, hq, ih, fun h : q = p => hq h]

lemma count_validParsed_eq_one (raw : List DiscoveryEndpoint) (hnd : raw.Nodup)
    (d : DiscoveryEndpoint) (hd : d ∈ raw) (p : ParsedEndpoint)
    (hm : mkParsed d = some p) :
    (validParsed raw).count p = 1 := by
  rw [count_validParsed]
  have hcongr : raw.countP (fun d' => decide (mkParsed d' = some p)) =
      raw.countP (fun d' => d' == d) := by
    refine List.countP_congr (fun d' _ => ?_)
    simp only [decide_eq_true_eq, beq_iff_eq]
    constructor
    · intro h
      rw [mkParsed_determined d' p h, mkParsed_determined d p hm]
    · intro h
      rw [h, hm]
  rw [hcongr]
  exact List.count_eq_one_of_mem hnd hd

/-- Claim C7: parsing a raw descriptor list discards every descriptor
whose path has fewer than 5 slash-delimited segments from all indexes,
and indexes every other descriptor exactly once in the ordered endpoint
list, under its asset key (path segment 2), its category key (path
segment 3), and its composite asset/category key. -/
theorem parseEndpoints_indexing (raw : List DiscoveryEndpoint) (now : Int)
    (hnd : raw.Nodup) (d : DiscoveryEndpoint) (hd : d ∈ raw) :
    ((jsSplit d.path '/').length < 5 →
       (∀ e ∈ (parseEndpoints raw now).endpoints, e.path ≠ d.path)
     ∧ (∀ k e, e ∈ alLookupList (parseEndpoints raw now).byAsset k → e.path ≠ d.path)
     ∧ (∀ k e, e ∈ alLookupList (parseEndpoints raw now).byCategory k → e.path ≠ d.path)
     ∧ (∀ k e, e ∈ alLookupList (parseEndpoints raw now).byAssetCategory k →
          e.path ≠ d.path))
  ∧ (∀ p, mkParsed d = some p →
       p ∈ (parseEndpoints raw now).endpoints
     ∧ p.asset = (jsSplit d.path '/').getD 2 ""
     ∧ p.category = (jsSplit d.path '/').getD 3 ""
     ∧ (alLookupList (parseEndpoints raw now).byAsset p.asset).count p = 1
     ∧ (∀ k, k ≠ p.asset → p ∉ alLookupList (parseEndpoints raw now).byAsset k)
     ∧ (alLookupList (parseEndpoints raw now).byCategory p.category).count p = 1
     ∧ (∀ k, k ≠ p.category → p ∉ alLookupList (parseEndpoints raw now).byCategory k)
     ∧ (alLookupList (parseEndpoints raw now).byAssetCategory
          (p.asset ++ "/" ++ p.category)).count p = 1
     ∧ (∀ k, k ≠ p.asset ++ "/" ++ p.category →
          p ∉ alLookupList (parseEndpoints raw now).byAssetCategory k)) := by
  have hmem_path : ∀ e ∈ validParsed raw, ¬ (jsSplit e.path '/').length < 5 := by
    intro e he
    obtain ⟨d', _, hm'⟩ := List.mem_filterMap.mp he
    obtain ⟨hp, -, -, hlen, -⟩ := mkParsed_some_elim d' e hm'
    rw [hp]
    exact hlen
  constructor
  · intro hlen
    have base : ∀ e ∈ validParsed raw, e.path ≠ d.path := by
      intro e he heq
      exact hmem_path e he (heq ▸ hlen)
    refine ⟨?_, ?_, ?_, ?_⟩
    · rw [parseEndpoints_endpoints]
      exact base
    · intro k e he
      rw [parseEndpoints_byAsset] at he
      exact base e (List.mem_of_mem_filter he)
    · intro k e he
      rw [parseEndpoints_byCategory] at he
      exact base e (List.mem_of_mem_filter he)
    · intro k e he
      rw [parseEndpoints_byAssetCategory] at he
      exact base e (List.mem_of_mem_filter he)
  · intro p hm
    obtain ⟨-, -, -, -, hassetEq, hcatEq⟩ := mkParsed_some_elim d p hm
    have hpmem : p ∈ validParsed raw :=
      List.mem_filterMap.mpr ⟨d, hd, hm⟩
    have hone := count_validParsed_eq_one raw hnd d hd p hm
    refine ⟨by rw [parseEndpoints_endpoints]; exact hpmem, hassetEq, hcatEq,
            ?_, ?_, ?_, ?_, ?_, ?_⟩
    · rw [parseEndpoints_byAsset]
      have hb : (p.asset == p.asset) = true := by simp
      have hc : List.count p ((validParsed raw).filter (fun e => e.asset == p.asset)) =
          List.count p (validParsed raw) := List.count_filter hb
      rw [hc, hone]
    · intro k hk hcontra
      rw [parseEndpoints_byAsset] at hcontra
      have hkk := List.of_mem_filter hcontra
      have heq : p.asset = k := by simpa using hkk
      exact hk heq.symm
    · rw [parseEndpoints_byCategory]
      have hb : (p.category == p.category) = true := by simp
      have hc : List.count p
            ((validParsed raw).filter (fun e => e.category == p.category)) =
          List.count p (validParsed raw) := List.count_filter hb
      rw [hc, hone]
    · intro k hk hcontra
      rw [parseEndpoints_byCategory] at hcontra
      have hkk := List.of_mem_filter hcontra
      have heq : p.category = k := by simpa using hkk
      exact hk heq.symm
    · rw [parseEndpoints_byAssetCategory]
      have hb : ((p.asset ++ "/" ++ p.category) == (p.asset ++ "/" ++ p.category)) = true := by
        simp
      have hc : List.count p
            ((validParsed raw).filter
              (fun e => (e.asset ++ "/" ++ e.category) == (p.asset ++ "/" ++ p.category))) =
          List.count p (validParsed raw) := List.count_filter hb
      rw [hc, hone]
    · intro k hk hcontra
      rw [parseEndpoints_byAssetCategory] at hcontra
      have hkk := List.of_mem_filter hcontra
      have heq : p.asset ++ "/" ++ p.category = k := by simpa using hkk
      exact hk heq.symm

/-- Witness for C7: a two-descriptor list (one well-formed, one with too
few path segments) indexes the well-formed endpoint exactly once under
its asset key. -/
theorem parseEndpoints_indexing_witness :
    (alLookupList
      (parseEndpoints
        [⟨"/v1/btc/market-data/price", [], []⟩, ⟨"/v1/status", [], []⟩] 0).byAsset
      "btc").count
      ⟨"/v1/btc/market-data/price", "btc", "market-data", "price", [], []⟩ = 1 :=
  ((parseEndpoints_indexing
      [⟨"/v1/btc/market-data/price", [], []⟩, ⟨"/v1/status", [], []⟩] 0
      (by decide) ⟨"/v1/btc/market-data/price", [], []⟩ (by decide)).2
    ⟨"/v1/btc/market-data/price", "btc", "market-data", "price", [], []⟩
    (by decide)).2.2.2.1


/-- Claim C2: `validateDateRange` is valid when no permission state is
loaded or the tier is unknown; invalid when `hasEndpointAccess` denies
the path; valid when `fromDate` is absent (undefined or the falsy empty
string); with a date present, invalid when no duration limit is found
for the path, valid for the unlimited sentinel, and otherwise invalid
exactly when the requested date is strictly earlier than "today minus
the offset", with the failure carrying the date-only earliest-allowed
date and the raw limit token. -/
theorem validateDateRange_correct (st : PlanLimitsState) (now : JSDate)
    (path : String) (fromDate : Option String) (windowType : Option String) :
    ((¬ st.loaded ∨ st.plan = .unknown) →
      validateDateRange st now path fromDate windowType = drvOk)
  ∧ (st.loaded = true → st.plan ≠ .unknown → hasEndpointAccess st path = false →
      (validateDateRange st now path fromDate windowType).valid = false)
  ∧ (st.loaded = true → st.plan ≠ .unknown → hasEndpointAccess st path = true →
      (fromDate = none ∨ fromDate = some "") →
      validateDateRange st now path fromDate windowType = drvOk)
  ∧ (∀ s, st.loaded = true → st.plan ≠ .unknown → hasEndpointAccess st path = true →
      fromDate = some s → s ≠ "" →
      getPlanLimit st path windowType = none →
      (validateDateRange st now path fromDate windowType).valid = false)
  ∧ (∀ s, st.loaded = true → st.plan ≠ .unknown → hasEndpointAccess st path = true →
      fromDate = some s → s ≠ "" →
      getPlanLimit st path windowType = some "P0D" →
      validateDateRange st now path fromDate windowType = drvOk)
  ∧ (∀ s l n u req, st.loaded = true → st.plan ≠ .unknown →
      hasEndpointAccess st path = true →
      fromDate = some s → getPlanLimit st path windowType = some l →
      l ≠ "P0D" → IsDurToken l n u → jsDateParse s = some req →
      ((validateDateRange st now path fromDate windowType).valid = false ↔
        req.toMs < (calendarSub now n u).toMs)
    ∧ (req.toMs < (calendarSub now n u).toMs →
        validateDateRange st now path fromDate windowType =
          ⟨false, some "Date range exceeds plan limit",
            some (isoDateOnly (calendarSub now n u)), some l⟩)) := by
  have hguard : ∀ (hl : st.loaded = true) (hu : st.plan ≠ .unknown),
      ¬ (¬ st.loaded ∨ st.plan = .unknown) := by
    intro hl hu h
    rcases h with h | h
    · exact h (by rw [hl])
    · exact hu h
  refine ⟨?_, ?_, ?_, ?_, ?_, ?_⟩
  · intro h
    unfold validateDateRange
    rw [if_pos h]
  · intro hl hu hacc
    unfold validateDateRange
    rw [if_neg (hguard hl hu), if_pos (by simp [hacc])]
  · intro hl hu hacc hfrom
    unfold validateDateRange
    rw [if_neg (hguard hl hu), if_neg (by simp [hacc])]
    rcases hfrom with h | h <;> rw [h]
    simp
  · intro s hl hu hacc hfrom hs hlim
    unfold validateDateRange
    rw [if_neg (hguard hl hu), if_neg (by simp [hacc]), hfrom]
    simp only [if_neg hs]
    rw [hlim]
  · intro s hl hu hacc hfrom hs hlim
    unfold validateDateRange
    rw [if_neg (hguard hl hu), if_neg (by simp [hacc]), hfrom]
    simp only [if_neg hs]
    rw [hlim]
    simp
  · intro s l n u req hl hu hacc hfrom hlim hnl ht hparse
    have hs : s ≠ "" := by
      intro h
      rw [h] at hparse
      exact Option.noConfusion hparse
    have hdur := parseDurationToDate_of_token now l n u ht hnl
    unfold validateDateRange
    rw [if_neg (hguard hl hu), if_neg (by simp [hacc]), hfrom]
    simp only [if_neg hs]
    rw [hlim]
    have hlne : l ≠ "" := by
      intro h
      obtain ⟨ds, hdata, -⟩ := ht
      rw [h] at hdata
      exact List.noConfusion hdata
    simp only [if_neg hlne, if_neg hnl, hdur, hparse]
    by_cases hcmp : req.toMs < (calendarSub now n u).toMs
    · rw [if_pos hcmp]
      exact ⟨by simp [hcmp], fun _ => rfl⟩
    · rw [if_neg hcmp]
      exact ⟨by simp [hcmp, drvOk], fun h => absurd h hcmp⟩

/-- Witness for C2: an advanced-tier state with a `"P3Y"` day-window
limit on `/v1/btc/market-data/price` rejects a request from 2000-01-01,
surfacing `earliest_allowed = today minus 3 years` (date-only) and the
raw token. -/
theorem validateDateRange_correct_witness :
    validateDateRange
      ⟨true, some [("btc", [("market-data", [("price", ⟨[("day", "P3Y")]⟩)])])],
        .advanced, [], none, none⟩
      (mkJSDate 2024 5 15 0) "/v1/btc/market-data/price" (some "2000-01-01") none =
      ⟨false, some "Date range exceeds plan limit", some "2021-06-15", some "P3Y"⟩ := by
  have h := ((validateDateRange_correct
      ⟨true, some [("btc", [("market-data", [("price", ⟨[("day", "P3Y")]⟩)])])],
        .advanced, [], none, none⟩
      (mkJSDate 2024 5 15 0) "/v1/btc/market-data/price" (some "2000-01-01")
      none).2.2.2.2.2
    "2000-01-01" "P3Y" 3 'Y' (mkJSDate 2000 0 1 0) (by decide) (by decide) (by decide)
    rfl (by decide) (by decide)
    ⟨['3'], by decide, by decide, by decide, by decide, by decide⟩ (by decide)).2
    (by decide)
  rw [h]
  decide


/-- Claim C6: `writeCache` followed immediately by `readCache` on the
same URL returns the written record, which `isCacheValid` accepts for
that URL and the key's 8-character prefix: it carries the current format
version, the given URL, the key prefix, and an expiry exactly 7 days
after creation, so it is unexpired at read time. -/
theorem cache_roundtrip (apiUrl apiKey : String) (raw : MyDiscoveryRawResponse)
    (parsed : ParsedTriple) (summary : DiscoverySummaryData) (plan : UserPlan)
    (now : Int) :
    readCache (some (encodeCache (mkCacheRecord apiUrl apiKey raw parsed summary plan now))) =
      some (encodeCache (mkCacheRecord apiUrl apiKey raw parsed summary plan now))
  ∧ isCacheValid (encodeCache (mkCacheRecord apiUrl apiKey raw parsed summary plan now))
      apiUrl (strTake apiKey 8) now = .ok true
  ∧ (mkCacheRecord apiUrl apiKey raw parsed summary plan now).version = CACHE_VERSION
  ∧ (mkCacheRecord apiUrl apiKey raw parsed summary plan now).metadata.api_url = apiUrl
  ∧ (mkCacheRecord apiUrl apiKey raw parsed summary plan now).metadata.key_pfx =
      strTake apiKey 8
  ∧ (mkCacheRecord apiUrl apiKey raw parsed summary plan now).metadata.expires_at =
      (mkCacheRecord apiUrl apiKey raw parsed summary plan now).metadata.cached_at +
        7 * 86400000 := by
  refine ⟨rfl, ?_, rfl, rfl, rfl, rfl⟩
  have h1 : jsGet (encodeCache (mkCacheRecord apiUrl apiKey raw parsed summary plan now))
      "version" = .ok (some (.jnum 1)) := rfl
  have h2 : jsGet (encodeCache (mkCacheRecord apiUrl apiKey raw parsed summary plan now))
      "metadata" = .ok (some (.jobj
        [("api_url", .jstr apiUrl), ("api_key_prefix", .jstr (strTake apiKey 8)),
         ("cached_at", .jnum now), ("expires_at", .jnum (now + CACHE_TTL_DAYS * 86400000)),
         ("plan", .jstr (planToString plan))])) := rfl
  rw [isCacheValid, h1, h2]
  simp only [jvIsNum, jsGetOn, jsGet, alLookup]
  simp [jvIsStr, jsDateMsOf, CACHE_VERSION, CACHE_TTL_DAYS]

/-- Claim C3: an HTTP 403 or 500 from the permission-payload fetch is a
success whose state is a loaded basic tier with a null permission table
and no statics, and the enclosing `initializePermissions` call still
succeeds with the session authenticated. -/
theorem permission403_fallback (apiKey apiUrl : String) (file : Option JVal)
    (disc : DiscoveryFetchResult) (status : Nat) (body : Option JVal) (now : Int)
    (prevPerm : PermissionState) (prevPlan : PlanLimitsState)
    (hstatus : status = 403 ∨ status = 500)
    (hmiss : cacheGate file apiUrl (strTake apiKey 8) now = .ok none)
    (hdisc : disc.success = true) :
    (fetchPlanLimits (some (status, body)) now prevPlan).1.success = true
  ∧ (fetchPlanLimits (some (status, body)) now prevPlan).1.parsed = some ⟨none, [], none⟩
  ∧ (fetchPlanLimits (some (status, body)) now prevPlan).2.plan = .basic
  ∧ (fetchPlanLimits (some (status, body)) now prevPlan).2.limits = none
  ∧ (fetchPlanLimits (some (status, body)) now prevPlan).2.statics = []
  ∧ initializePermissions apiKey apiUrl file disc (some (status, body)) now
      prevPerm prevPlan =
      .ok ({ success := true, error := none, from_cache := false,
             cache_status := "none", summary := none },
           { authenticated := true, api_key := some apiKey, cached_at := some now,
             plan := .basic, plan_limits_loaded := true, from_cache := false },
           { defaultPlanLimitsState with
               loaded := true, plan := .basic, fetched_at := some now },
           none) := by
  have hf : fetchPlanLimits (some (status, body)) now prevPlan =
      (⟨true, none, none, some ⟨none, [], none⟩, some .basic⟩,
       { defaultPlanLimitsState with
           loaded := true, plan := .basic, fetched_at := some now }) := by
    unfold fetchPlanLimits
    simp only [if_pos hstatus]
  refine ⟨by simp [hf], by simp [hf], by simp [hf], by simp [hf, defaultPlanLimitsState], by simp [hf, defaultPlanLimitsState], ?_⟩
  unfold initializePermissions
  simp only [hmiss, hdisc, hf]
  simp [defaultPlanLimitsState]

/-- Witness for C3: a 403 response on a cache miss yields an
authenticated basic-tier session. -/
theorem permission403_fallback_witness :
    initializePermissions "testkey1" "u" none ⟨true, none⟩ (some (403, none)) 0
      defaultPermissionState defaultPlanLimitsState =
      .ok ({ success := true, error := none, from_cache := false,
             cache_status := "none", summary := none },
           { authenticated := true, api_key := some "testkey1", cached_at := some 0,
             plan := .basic, plan_limits_loaded := true, from_cache := false },
           { defaultPlanLimitsState with
               loaded := true, plan := .basic, fetched_at := some 0 },
           none) :=
  (permission403_fallback "testkey1" "u" none ⟨true, none⟩ 403 none 0
    defaultPermissionState defaultPlanLimitsState (Or.inl rfl) rfl rfl).2.2.2.2.2

/-- Claim C5: on a cache miss or invalid cache, `initializePermissions`
fails (and the default session stays unauthenticated) whenever the
endpoint-catalog fetch fails; a failed permission-payload fetch does not
prevent success (the session is still authenticated); and a cache record
is written only when the permission payload carries a truthy raw
response, a parsed fragment, and an extractable raw shape. -/
theorem initialize_freshpath_spec (apiKey apiUrl : String) (file : Option JVal)
    (disc : DiscoveryFetchResult) (planWire : Option (Nat × Option JVal)) (now : Int)
    (prevPlan : PlanLimitsState)
    (hmiss : cacheGate file apiUrl (strTake apiKey 8) now = .ok none) :
    (disc.success = false →
      initializePermissions apiKey apiUrl file disc planWire now
          defaultPermissionState prevPlan =
        .ok ({ success := false, error := disc.error, from_cache := false,
               cache_status := "none", summary := none },
             defaultPermissionState, prevPlan, none)
      ∧ defaultPermissionState.authenticated = false)
  ∧ (disc.success = true →
      (fetchPlanLimits planWire now prevPlan).1.success = false →
      ∃ r perm planSt w,
        initializePermissions apiKey apiUrl file disc planWire now
            defaultPermissionState prevPlan = .ok (r, perm, planSt, w)
        ∧ r.success = true ∧ perm.authenticated = true)
  ∧ (∀ r perm planSt w,
      initializePermissions apiKey apiUrl file disc planWire now
          defaultPermissionState prevPlan = .ok (r, perm, planSt, w) →
      w ≠ none →
      (fetchPlanLimits planWire now prevPlan).1.success = true
      ∧ ∃ raw, (fetchPlanLimits planWire now prevPlan).1.rawResponse = some raw
        ∧ (fetchPlanLimits planWire now prevPlan).1.parsed.isSome = true
        ∧ (extractRawResponse raw).isSome = true) := by
  refine ⟨fun hd => ?_, fun hd hp => ?_, fun r perm planSt w heq hw => ?_⟩
  · unfold initializePermissions
    simp only [hmiss]
    simp [hd, defaultPermissionState]
  · unfold initializePermissions
    simp only [hmiss]
    cases hfp : fetchPlanLimits planWire now prevPlan with
    | mk pr ps =>
      rw [hfp] at hp
      simp only at hp
      simp only [hd, hfp, Bool.not_true, if_false]
      refine ⟨{ success := true, error := none, from_cache := false,
                cache_status := "none", summary := none },
              { authenticated := true, api_key := some apiKey, cached_at := some now,
                plan := ps.plan, plan_limits_loaded := ps.loaded, from_cache := false },
              ps, none, ?_, rfl, rfl⟩
      simp [hp]
  · unfold initializePermissions at heq
    simp only [hmiss] at heq
    by_cases hd : disc.success
    · simp only [hd] at heq
      rw [if_neg (not_not_intro trivial)] at heq
      cases hfp : fetchPlanLimits planWire now prevPlan with
      | mk pr ps =>
        rw [hfp] at heq
        simp only at heq
        cases hraw : pr.rawResponse with
        | none =>
          simp only [hraw] at heq
          rw [if_neg (by simp)] at heq
          simp only [Except.ok.injEq, Prod.mk.injEq] at heq
          exact absurd heq.2.2.2.symm hw
        | some raw =>
          simp only [hraw] at heq
          cases hcond : (pr.success && jvTruthy raw && pr.parsed.isSome) with
          | false =>
            rw [hcond] at heq
            rw [if_neg (by simp)] at heq
            simp only [Except.ok.injEq, Prod.mk.injEq] at heq
            exact absurd heq.2.2.2.symm hw
          | true =>
            rw [hcond, if_pos rfl] at heq
            have hconj : pr.success = true ∧ jvTruthy raw = true ∧
                pr.parsed.isSome = true := by
              simpa [Bool.and_assoc] using hcond
            obtain ⟨hsucc, htruthy, hparsed⟩ := hconj
            cases hp2 : pr.parsed with
            | none =>
              rw [hp2] at hparsed
              exact absurd hparsed (by simp)
            | some parsedv =>
              simp only [hp2] at heq
              cases hext : extractRawResponse raw with
              | none =>
                simp only [hext] at heq
                simp only [Except.ok.injEq, Prod.mk.injEq] at heq
                exact absurd heq.2.2.2.symm hw
              | some rawR =>
                exact ⟨hsucc, raw, rfl, rfl, by simp [hext]⟩
    · simp [hd] at heq
      rcases heq with ⟨-, -, -, hww⟩
      exact absurd hww.symm hw

/-- Witness for C5: with a cache miss and a failed endpoint-catalog
fetch, initialization fails and the default session stays
unauthenticated. -/
theorem initialize_freshpath_spec_witness :
    initializePermissions "testkey1" "u" none
      ⟨false, some "Discovery API failed: 500"⟩ (some (403, none)) 0
      defaultPermissionState defaultPlanLimitsState =
      .ok ({ success := false, error := some "Discovery API failed: 500",
             from_cache := false, cache_status := "none", summary := none },
           defaultPermissionState, defaultPlanLimitsState, none) :=
  ((initialize_freshpath_spec "testkey1" "u" none
      ⟨false, some "Discovery API failed: 500"⟩ (some (403, none)) 0
      defaultPlanLimitsState rfl).1 rfl).1

/-- Claim C10: `readCache`'s structural validation checks only that the
four top-level fields `version`, `metadata`, `raw_response` and
`summary` are present and truthy, so a cache file that lacks `parsed`
is returned as a record; the cached-initialization path then reads
`record.parsed.limits` outside any try/catch, and the resulting
`TypeError` escapes `initializePermissions`. -/
theorem cachedInit_parsed_unguarded :
    readCache (some (.jobj
      [("version", .jnum 1),
       ("metadata", .jobj
          [("api_url", .jstr "u"), ("api_key_prefix", .jstr "testkey1"),
           ("expires_at", .jnum 1)]),
       ("raw_response", .jobj []), ("summary", .jobj [])])) =
      some (.jobj
        [("version", .jnum 1),
         ("metadata", .jobj
            [("api_url", .jstr "u"), ("api_key_prefix", .jstr "testkey1"),
             ("expires_at", .jnum 1)]),
         ("raw_response", .jobj []), ("summary", .jobj [])])
  ∧ initializePermissions "testkey1" "u"
      (some (.jobj
        [("version", .jnum 1),
         ("metadata", .jobj
            [("api_url", .jstr "u"), ("api_key_prefix", .jstr "testkey1"),
             ("expires_at", .jnum 1)]),
         ("raw_response", .jobj []), ("summary", .jobj [])]))
      ⟨true, none⟩ (some (200, none)) 0 defaultPermissionState defaultPlanLimitsState =
      .error "TypeError: cannot read properties of undefined (reading limits)" :=
  ⟨rfl, rfl⟩
